import Mathlib

/-!
Verification of the streaming completion pipeline of `ai-shell`
(`src/helpers/completion.ts`), shallowly embedded in Lean.

Strings are modelled as `List Char` (`Str`).  JavaScript library and
runtime primitives used by the source (`String.prototype.split`,
`includes`, `trim`, `JSON.parse`, `JSON.stringify`, the `dedent`
package, template-literal interpolation) are modelled by executable
Lean functions defined below; each model carries a doc comment naming
the primitive it models.  The functions of `completion.ts` themselves
are translated definition by definition.
-/

set_option maxHeartbeats 1000000
set_option maxRecDepth 40000

/-- Strings are lists of characters. -/
abbrev Str := List Char

/-- Character list of a Lean string literal. -/
def strL (s : String) : Str := s.data

/-- Models the JavaScript `\s` character class (WhiteSpace and
LineTerminator productions), as used by `trim`, `\s*` in the source
regexes, and the `dedent` package. -/
def isJsSpace (c : Char) : Bool :=
  let n := c.toNat
  n = 0x20 || n = 0x09 || n = 0x0a || n = 0x0b || n = 0x0c || n = 0x0d ||
  n = 0xa0 || n = 0x1680 || (0x2000 ≤ n && n ≤ 0x200a) ||
  n = 0x2028 || n = 0x2029 || n = 0x202f || n = 0x205f || n = 0x3000 ||
  n = 0xfeff

/-- Models JavaScript `String.prototype.trim`. -/
def jsTrim (l : Str) : Str :=
  ((l.dropWhile isJsSpace).reverse.dropWhile isJsSpace).reverse

/-- `leadsWith n l` models `l.startsWith(n)` (is `n` an initial segment
of `l`). -/
def leadsWith : Str → Str → Bool
  | [], _ => true
  | _ :: _, [] => false
  | a :: as, b :: bs => a == b && leadsWith as bs

/-- `hasSub n l` models `l.includes(n)`: does `n` occur as a contiguous
substring of `l`. -/
def hasSub (n : Str) : Str → Bool
  | [] => decide (n = [])
  | c :: t => leadsWith n (c :: t) || hasSub n t

/-- Models `chunk.split('\n\n')` (first argument is the reversed
accumulator of the current segment): leftmost, non-overlapping splitting
on the two-character delimiter, as the source does in
`readFullResponse` and `readData`. -/
def splitPayloads : Str → Str → List Str
  | acc, '\n' :: '\n' :: rest => acc.reverse :: splitPayloads [] rest
  | acc, c :: rest => splitPayloads (c :: acc) rest
  | acc, [] => [acc.reverse]

/-- The payload sequence produced from a chunk sequence: each chunk is
split on the blank-line delimiter (source lines 107 and 301). -/
def payloadsOfChunks (chunks : List Str) : List Str :=
  chunks.flatMap (splitPayloads [])

/-- The `[DONE]` sentinel text. -/
def doneMark : Str := strL "[DONE]"

/-- The `data:` payload tag. -/
def dataTag : Str := strL "data:"

-- ### Basic lemmas about the string primitives

theorem leadsWith_append (n t : Str) : leadsWith n (n ++ t) = true := by
  induction n with
  | nil => rfl
  | cons c cs ih => simp [leadsWith, ih]

theorem leadsWith_length {n l : Str} (h : leadsWith n l = true) :
    n.length ≤ l.length := by
  induction n generalizing l with
  | nil => simp
  | cons c cs ih =>
    cases l with
    | nil => simp [leadsWith] at h
    | cons b bs =>
      simp only [leadsWith, Bool.and_eq_true] at h
      simpa [List.length_cons] using Nat.succ_le_succ (ih h.2)

theorem hasSub_nil (l : Str) : hasSub [] l = true := by
  cases l <;> simp [hasSub, leadsWith]

theorem hasSub_append_mid (n a b : Str) : hasSub n (a ++ n ++ b) = true := by
  induction a with
  | nil =>
    cases n with
    | nil => simpa using hasSub_nil b
    | cons c cs =>
      have h := leadsWith_append (c :: cs) b
      simp only [List.nil_append, List.cons_append, hasSub, Bool.or_eq_true]
      left
      simpa [List.cons_append] using h
  | cons c cs ih =>
    simp only [List.cons_append, hasSub, Bool.or_eq_true]
    right
    simpa [List.append_assoc] using ih

theorem leadsWith_append_right {n l : Str} (b : Str)
    (h : leadsWith n l = true) : leadsWith n (l ++ b) = true := by
  induction n generalizing l with
  | nil => rfl
  | cons d ds ih =>
    cases l with
    | nil => simp [leadsWith] at h
    | cons e es =>
      simp only [leadsWith, Bool.and_eq_true] at h
      simp only [List.cons_append, leadsWith, Bool.and_eq_true]
      exact ⟨h.1, ih h.2⟩

theorem hasSub_append_right (n a b : Str) (h : hasSub n a = true) :
    hasSub n (a ++ b) = true := by
  induction a with
  | nil =>
    simp only [hasSub, decide_eq_true_eq] at h
    subst h
    cases b <;> simp [hasSub, leadsWith]
  | cons c cs ih =>
    simp only [hasSub, Bool.or_eq_true] at h ⊢
    rcases h with h | h
    · exact Or.inl (leadsWith_append_right b h)
    · exact Or.inr (ih h)

theorem splitPayloads_ne_nil (acc l : Str) : splitPayloads acc l ≠ [] := by
  induction l generalizing acc with
  | nil => simp [splitPayloads]
  | cons c rest ih =>
    cases rest with
    | nil =>
      by_cases h : c = '\n' <;> simp [splitPayloads, ih]
    | cons d rest' =>
      by_cases h : c = '\n'
      · by_cases h' : d = '\n'
        · subst h h'; simp [splitPayloads, ih]
        · subst h
          have : splitPayloads acc ('\n' :: d :: rest') =
              splitPayloads ('\n' :: acc) (d :: rest') := by
            cases d <;> simp_all [splitPayloads]
          rw [this]; exact ih _
      · have : splitPayloads acc (c :: d :: rest') =
            splitPayloads (c :: acc) (d :: rest') := by
          cases c <;> simp_all [splitPayloads]
        rw [this]; exact ih _

-- ### A model of the JavaScript JSON values and `JSON.parse`

/-- Values produced by the JavaScript `JSON.parse` builtin.  Numbers
keep their source lexeme (the payloads exercised here use integer
literals only). -/
inductive Json where
  | null
  | bool (b : Bool)
  | num (raw : Str)
  | str (s : Str)
  | arr (elems : List Json)
  | obj (fields : List (Str × Json))

/-- The opening-brace character, `U+007B`. -/
def lbraceC : Char := Char.ofNat 123

/-- The closing-brace character, `U+007D`. -/
def rbraceC : Char := Char.ofNat 125

/-- Drop leading JSON whitespace. -/
def skipWs (l : Str) : Str := l.dropWhile isJsSpace

/-- Hexadecimal digit value. -/
def hexVal (c : Char) : Option Nat :=
  if '0' ≤ c ∧ c ≤ '9' then some (c.toNat - '0'.toNat)
  else if 'a' ≤ c ∧ c ≤ 'f' then some (c.toNat - 'a'.toNat + 10)
  else if 'A' ≤ c ∧ c ≤ 'F' then some (c.toNat - 'A'.toNat + 10)
  else none

/-- JavaScript object creation during `JSON.parse`: a duplicate key
overwrites the earlier value in place. -/
def objUpsert (k : Str) (v : Json) : List (Str × Json) → List (Str × Json)
  | [] => [(k, v)]
  | (k0, v0) :: t => if k0 = k then (k, v) :: t else (k0, v0) :: objUpsert k v t

/-- Body of a JSON string literal, after the opening quote.  Returns
the decoded characters and the remaining input. -/
def jpString : Nat → Str → Except Str (Str × Str)
  | 0, _ => .error (strL "SyntaxError: string too long")
  | _ + 1, [] => .error (strL "SyntaxError: unterminated string")
  | fuel + 1, c :: rest =>
    if c = '"' then .ok ([], rest)
    else if c = '\\' then
      match rest with
      | [] => .error (strL "SyntaxError: unterminated escape")
      | e :: rest2 =>
        if e = '"' ∨ e = '\\' ∨ e = '/' then
          (jpString fuel rest2).map (fun r => (e :: r.1, r.2))
        else if e = 'n' then (jpString fuel rest2).map (fun r => ('\n' :: r.1, r.2))
        else if e = 't' then (jpString fuel rest2).map (fun r => ('\t' :: r.1, r.2))
        else if e = 'r' then (jpString fuel rest2).map (fun r => ('\r' :: r.1, r.2))
        else if e = 'b' then (jpString fuel rest2).map (fun r => ('\x08' :: r.1, r.2))
        else if e = 'f' then (jpString fuel rest2).map (fun r => ('\x0c' :: r.1, r.2))
        else if e = 'u' then
          match rest2 with
          | h1 :: h2 :: h3 :: h4 :: rest3 =>
            match hexVal h1, hexVal h2, hexVal h3, hexVal h4 with
            | some a, some b, some c2, some d =>
              let n := ((a * 16 + b) * 16 + c2) * 16 + d
              if h : n.isValidChar then
                (jpString fuel rest3).map (fun r => (Char.ofNatAux n h :: r.1, r.2))
              else .error (strL "SyntaxError: lone surrogate")
            | _, _, _, _ => .error (strL "SyntaxError: bad unicode escape")
          | _ => .error (strL "SyntaxError: bad unicode escape")
        else .error (strL "SyntaxError: bad escape")
    else if c.toNat < 0x20 then .error (strL "SyntaxError: bad control character")
    else (jpString fuel rest).map (fun r => (c :: r.1, r.2))

/-- A nonempty run of decimal digits. -/
def jpDigits (l : Str) : Option (Str × Str) :=
  let d := l.takeWhile Char.isDigit
  if d = [] then none else some (d, l.drop d.length)

/-- A JSON number literal; the lexeme is kept verbatim. -/
def jpNumber (l : Str) : Except Str (Json × Str) :=
  let (sg, l1) : Str × Str := if l.head? = some '-' then (['-'], l.tail) else ([], l)
  match jpDigits l1 with
  | none => .error (strL "SyntaxError: invalid number")
  | some (ip, r0) =>
    match r0 with
    | '.' :: rr =>
      match jpDigits rr with
      | none => .error (strL "SyntaxError: invalid number")
      | some (fp, r1) =>
        match r1 with
        | 'e' :: r2 => jpExpTail (sg ++ ip ++ '.' :: fp ++ ['e']) r2
        | 'E' :: r2 => jpExpTail (sg ++ ip ++ '.' :: fp ++ ['E']) r2
        | _ => .ok (.num (sg ++ ip ++ '.' :: fp), r1)
    | 'e' :: r2 => jpExpTail (sg ++ ip ++ ['e']) r2
    | 'E' :: r2 => jpExpTail (sg ++ ip ++ ['E']) r2
    | _ => .ok (.num (sg ++ ip), r0)
where
  jpExpTail (pre : Str) (l2 : Str) : Except Str (Json × Str) :=
    let (es, l3) : Str × Str :=
      if l2.head? = some '+' ∨ l2.head? = some '-' then (l2.take 1, l2.tail) else ([], l2)
    match jpDigits l3 with
    | none => .error (strL "SyntaxError: invalid number")
    | some (ep, r) => .ok (.num (pre ++ es ++ ep), r)

mutual

/-- A JSON value, by recursion on a fuel bound (the bound chosen by
`jsonParseJs` is generous enough for any input). -/
def jpValue : Nat → Str → Except Str (Json × Str)
  | 0, _ => .error (strL "SyntaxError: input too deeply nested")
  | fuel + 1, l =>
    match skipWs l with
    | [] => .error (strL "SyntaxError: unexpected end of JSON input")
    | c :: rest =>
      if c = 'n' then
        if leadsWith (strL "ull") rest then .ok (.null, rest.drop 3)
        else .error (strL "SyntaxError: unexpected token")
      else if c = 't' then
        if leadsWith (strL "rue") rest then .ok (.bool true, rest.drop 3)
        else .error (strL "SyntaxError: unexpected token")
      else if c = 'f' then
        if leadsWith (strL "alse") rest then .ok (.bool false, rest.drop 4)
        else .error (strL "SyntaxError: unexpected token")
      else if c = '"' then (jpString fuel rest).map (fun r => (.str r.1, r.2))
      else if c = '[' then
        match skipWs rest with
        | ']' :: r2 => .ok (.arr [], r2)
        | r1 => jpElems fuel r1 []
      else if c = lbraceC then
        match skipWs rest with
        | r1 =>
          if r1.head? = some rbraceC then .ok (.obj [], r1.tail)
          else jpFields fuel r1 []
      else if c = '-' ∨ c.isDigit then jpNumber (c :: rest)
      else .error (strL "SyntaxError: unexpected token")

/-- Array elements after the first opening bracket (nonempty case). -/
def jpElems : Nat → Str → List Json → Except Str (Json × Str)
  | 0, _, _ => .error (strL "SyntaxError: input too deeply nested")
  | fuel + 1, l, acc =>
    match jpValue fuel l with
    | .error e => .error e
    | .ok (v, r) =>
      match skipWs r with
      | ',' :: r2 => jpElems fuel r2 (acc ++ [v])
      | ']' :: r2 => .ok (.arr (acc ++ [v]), r2)
      | _ => .error (strL "SyntaxError: expected comma or bracket")

/-- Object members after the opening brace (nonempty case). -/
def jpFields : Nat → Str → List (Str × Json) → Except Str (Json × Str)
  | 0, _, _ => .error (strL "SyntaxError: input too deeply nested")
  | fuel + 1, l, acc =>
    match skipWs l with
    | '"' :: r0 =>
      match jpString fuel r0 with
      | .error e => .error e
      | .ok (k, r1) =>
        match skipWs r1 with
        | ':' :: r2 =>
          match jpValue fuel r2 with
          | .error e => .error e
          | .ok (v, r3) =>
            let acc2 := objUpsert k v acc
            match skipWs r3 with
            | ',' :: r4 => jpFields fuel r4 acc2
            | r4 =>
              if r4.head? = some rbraceC then .ok (.obj acc2, r4.tail)
              else .error (strL "SyntaxError: expected comma or brace")
        | _ => .error (strL "SyntaxError: expected colon")
    | _ => .error (strL "SyntaxError: expected property name")

end

/-- Models the JavaScript `JSON.parse` builtin (a runtime primitive,
not part of this repository) on the JSON subset this program
exchanges: null, booleans, numbers, strings with the common escapes,
arrays, objects.  Error strings stand in for the JavaScript
`SyntaxError` text that `parseContent` interpolates. -/
def jsonParseJs (l : Str) : Except Str Json :=
  match jpValue (4 * l.length + 16) l with
  | .error e => .error e
  | .ok (v, r) =>
    if skipWs r = [] then .ok v
    else .error (strL "SyntaxError: unexpected non-whitespace character")

-- ### JavaScript value coercions and the content extraction chain

/-- Join a list of strings with a separator. -/
def joinSep (sep : Str) : List Str → Str
  | [] => []
  | [x] => x
  | x :: xs => x ++ sep ++ joinSep sep xs

mutual

/-- JavaScript string coercion `String(v)` of a JSON value, as string
concatenation would apply it to a non-string `content`. -/
def jsCoerceStr : Json → Str
  | .null => strL "null"
  | .bool true => strL "true"
  | .bool false => strL "false"
  | .num raw => raw
  | .str s => s
  | .arr xs => joinSep [','] (jsCoerceElems xs)
  | .obj _ => strL "[object Object]"

/-- Array elements under `String(...)`: `null` elements print empty. -/
def jsCoerceElems : List Json → List Str
  | [] => []
  | .null :: t => [] :: jsCoerceElems t
  | j :: t => jsCoerceStr j :: jsCoerceElems t

end

/-- A JavaScript expression value: a JSON value or `undefined`. -/
inductive JsVal where
  | undefined
  | val (j : Json)

/-- Property access `o.name` on a value already known non-null:
objects look the field up, every other value yields `undefined`. -/
def jsMemberNN (name : Str) : Json → JsVal
  | .obj fs =>
    match fs.lookup name with
    | some v => .val v
    | none => .undefined
  | _ => .undefined

/-- The `?.` guard: `undefined` and `null` short-circuit. -/
def jsOpt (v : JsVal) (f : Json → JsVal) : JsVal :=
  match v with
  | .undefined => .undefined
  | .val .null => .undefined
  | .val j => f j

/-- Indexing `v[0]` on a non-null value: arrays take the head, strings
take the first character, objects look up the key `"0"`. -/
def jsIndex0 : Json → JsVal
  | .arr (x :: _) => .val x
  | .arr [] => .undefined
  | .str (c :: _) => .val (.str [c])
  | .str [] => .undefined
  | .obj fs =>
    match fs.lookup (strL "0") with
    | some v => .val v
    | none => .undefined
  | _ => .undefined

/-- Models `delta.choices?.[0]?.delta?.content ?? ''` as evaluated
inside the `try` of `parseContent` (source line 346): reading a
property of `null` throws a `TypeError`, caught by the same `catch`;
otherwise a missing member short-circuits to the empty string via
`?? ''`, and a non-string `content` is string-coerced. -/
def jsGetContent : Json → Except Str Str
  | .null => .error (strL "TypeError: Cannot read properties of null (reading choices)")
  | j =>
    let a := jsMemberNN (strL "choices") j
    let b := jsOpt a jsIndex0
    let c := jsOpt b (jsMemberNN (strL "delta"))
    let d := jsOpt c (jsMemberNN (strL "content"))
    .ok (match d with
         | .undefined => []
         | .val .null => []
         | .val v => jsCoerceStr v)

-- ### `JSON.stringify(v, null, 2)`

/-- Four-digit hexadecimal rendering for string escapes. -/
def hex4 (n : Nat) : Str :=
  let dig := fun k => if k < 10 then Char.ofNat ('0'.toNat + k)
                      else Char.ofNat ('a'.toNat + (k - 10))
  [dig (n / 4096 % 16), dig (n / 256 % 16), dig (n / 16 % 16), dig (n % 16)]

/-- One character under `JSON.stringify` string quoting. -/
def quoteEsc (c : Char) : Str :=
  if c = '"' then ['\\', '"']
  else if c = '\\' then ['\\', '\\']
  else if c = '\n' then ['\\', 'n']
  else if c = '\t' then ['\\', 't']
  else if c = '\r' then ['\\', 'r']
  else if c = '\x08' then ['\\', 'b']
  else if c = '\x0c' then ['\\', 'f']
  else if c.toNat < 0x20 then '\\' :: 'u' :: hex4 c.toNat
  else [c]

/-- `JSON.stringify` quoting of a string. -/
def quoteJs (s : Str) : Str := '"' :: s.flatMap quoteEsc ++ ['"']

/-- Indentation of `2 * n` spaces. -/
def pad2 (n : Nat) : Str := List.replicate (2 * n) ' '

mutual

/-- Models `JSON.stringify(v, null, 2)` (source line 175) at nesting
level `lv`. -/
def jsonStringify2At : Nat → Json → Str
  | _, .null => strL "null"
  | _, .bool true => strL "true"
  | _, .bool false => strL "false"
  | _, .num raw => raw
  | _, .str s => quoteJs s
  | _, .arr [] => strL "[]"
  | lv, .arr (x :: xs) =>
    '[' :: '\n' :: joinSep (',' :: ['\n']) (jsonStringify2Elems (lv + 1) (x :: xs)) ++
      '\n' :: pad2 lv ++ [']']
  | _, .obj [] => [lbraceC, rbraceC]
  | lv, .obj (f :: fs) =>
    lbraceC :: '\n' :: joinSep (',' :: ['\n']) (jsonStringify2Fields (lv + 1) (f :: fs)) ++
      '\n' :: pad2 lv ++ [rbraceC]

/-- Array items, each on its own indented line. -/
def jsonStringify2Elems : Nat → List Json → List Str
  | _, [] => []
  | lv, x :: xs => (pad2 lv ++ jsonStringify2At lv x) :: jsonStringify2Elems lv xs

/-- Object members, each on its own indented line. -/
def jsonStringify2Fields : Nat → List (Str × Json) → List Str
  | _, [] => []
  | lv, (k, v) :: fs =>
    (pad2 lv ++ quoteJs k ++ ':' :: ' ' :: jsonStringify2At lv v) ::
      jsonStringify2Fields lv fs

end

/-- `JSON.stringify(v, null, 2)`. -/
def jsonStringify2 (j : Json) : Str := jsonStringify2At 0 j

-- ### `parseContent` and `readFullResponse`

/-- Models `payload.replaceAll(/(\n)?^data:\s*/g, '')` (source line
343): without the `m` flag the anchor `^` only matches at the start of
the string and the optional `(\n)?` before it can never consume
anything, so exactly one leading `data:` tag plus the following
whitespace run is removed. -/
def stripDataTag (payload : Str) : Str :=
  if leadsWith dataTag payload then (payload.drop 5).dropWhile isJsSpace
  else payload

/-- `parseContent` (source lines 342-350): decode one `data:` payload;
on any exception a diagnostic string embedding the raw payload and the
error is returned instead. -/
def parseContent (payload : Str) : Str :=
  match (jsonParseJs (jsTrim (stripDataTag payload))).bind jsGetContent with
  | .ok content => content
  | .error e => strL "Error with JSON.parse and " ++ payload ++ strL ".\n" ++ e

/-- Result of the payload loop of `readFullResponse`: an early
`return` or the accumulator for the next chunk. -/
inductive FRStep where
  | done (acc : Str)
  | cont (acc : Str)

/-- The payload loop of `readFullResponse` (source lines 108-117). -/
def frPayloads : Str → List Str → FRStep
  | acc, [] => .cont acc
  | acc, p :: ps =>
    if hasSub doneMark p then .done acc
    else if leadsWith dataTag p then frPayloads (acc ++ parseContent p) ps
    else frPayloads acc ps

/-- The chunk loop of `readFullResponse`. -/
def readFullResponseGo : Str → List Str → Str
  | acc, [] => acc
  | acc, c :: cs =>
    match frPayloads acc (splitPayloads [] c) with
    | .done s => s
    | .cont acc2 => readFullResponseGo acc2 cs

/-- `readFullResponse` (source lines 100-121). -/
def readFullResponse (chunks : List Str) : Str :=
  readFullResponseGo [] chunks

/-- The decoded contents of the `data:`-prefixed payloads of a payload
list, in order. -/
def dataPayloadTexts (ps : List Str) : List Str :=
  (ps.filter (fun p => leadsWith dataTag p)).map parseContent

-- ### Lemmas about `readFullResponse`

/-- Collapse a payload-loop step to the value `readFullResponse` would
return from it. -/
def frFinish : FRStep → Str
  | .done s => s
  | .cont a => a

theorem frPayloads_append (acc : Str) (xs ys : List Str) :
    frPayloads acc (xs ++ ys) =
      match frPayloads acc xs with
      | .done s => .done s
      | .cont a => frPayloads a ys := by
  induction xs generalizing acc with
  | nil => simp [frPayloads]
  | cons p ps ih =>
    simp only [List.cons_append, frPayloads]
    by_cases h1 : hasSub doneMark p = true
    · simp [h1]
    · simp only [Bool.not_eq_true] at h1
      by_cases h2 : leadsWith dataTag p = true
      · simp [h1, h2, ih]
      · simp only [Bool.not_eq_true] at h2
        simp [h1, h2, ih]

theorem readFullResponseGo_flat (acc : Str) (chunks : List Str) :
    readFullResponseGo acc chunks =
      frFinish (frPayloads acc (payloadsOfChunks chunks)) := by
  induction chunks generalizing acc with
  | nil => simp [readFullResponseGo, payloadsOfChunks, frPayloads, frFinish]
  | cons c cs ih =>
    have hflat : payloadsOfChunks (c :: cs) =
        splitPayloads [] c ++ payloadsOfChunks cs := by
      simp [payloadsOfChunks]
    rw [hflat, frPayloads_append]
    simp only [readFullResponseGo]
    cases h : frPayloads acc (splitPayloads [] c) with
    | done s => simp [frFinish]
    | cont a => simpa [frFinish] using ih a

/-- The payload sequence of a chunk list is the concatenation of the
per-chunk splits, and `readFullResponse` only depends on it. -/
theorem readFullResponse_flat (chunks : List Str) :
    readFullResponse chunks =
      frFinish (frPayloads [] (payloadsOfChunks chunks)) :=
  readFullResponseGo_flat [] chunks

theorem frPayloads_clean (pre : List Str) (acc : Str)
    (h : ∀ q ∈ pre, hasSub doneMark q = false) :
    frPayloads acc pre = .cont (acc ++ (dataPayloadTexts pre).flatten) := by
  induction pre generalizing acc with
  | nil => simp [frPayloads, dataPayloadTexts]
  | cons p ps ih =>
    have hp : hasSub doneMark p = false := h p (by simp)
    have hps : ∀ q ∈ ps, hasSub doneMark q = false := fun q hq => h q (by simp [hq])
    simp only [frPayloads, hp, Bool.false_eq_true, if_false]
    by_cases hdp : leadsWith dataTag p = true
    · rw [if_pos hdp, ih _ hps]
      simp [dataPayloadTexts, hdp, List.append_assoc]
    · simp only [Bool.not_eq_true] at hdp
      rw [hdp]
      simp only [Bool.false_eq_true, if_false]
      rw [ih _ hps]
      simp [dataPayloadTexts, hdp]

/-- **C1 (amended)**: `readFullResponse` terminates at the first
payload whose text contains the `[DONE]` substring; it returns the
concatenation, in arrival order, of the `ContentDelta` of every
`data:`-prefixed payload before that payload, and consumes nothing
after it (the result does not depend on `post`). -/
theorem readFullResponse_concat_before_done
    (chunks pre post : List Str) (d : Str)
    (hsplit : payloadsOfChunks chunks = pre ++ d :: post)
    (hpre : ∀ q ∈ pre, hasSub doneMark q = false)
    (hd : hasSub doneMark d = true) :
    readFullResponse chunks = (dataPayloadTexts pre).flatten := by
  rw [readFullResponse_flat, hsplit, frPayloads_append,
      frPayloads_clean pre [] hpre]
  simp [frPayloads, hd, frFinish]

/-- Witness for C1 (amended): a concrete stream of two content
payloads followed by the sentinel. -/
theorem readFullResponse_concat_before_done_witness :
    readFullResponse
        [strL "data: \x7b\"choices\":[\x7b\"delta\":\x7b\"content\":\"Hello \"\x7d\x7d]\x7d\n\ndata: \x7b\"choices\":[\x7b\"delta\":\x7b\"content\":\"world\"\x7d\x7d]\x7d\n\n[DONE]"] =
      (dataPayloadTexts
        [strL "data: \x7b\"choices\":[\x7b\"delta\":\x7b\"content\":\"Hello \"\x7d\x7d]\x7d",
         strL "data: \x7b\"choices\":[\x7b\"delta\":\x7b\"content\":\"world\"\x7d\x7d]\x7d"]).flatten ∧
    readFullResponse
        [strL "data: \x7b\"choices\":[\x7b\"delta\":\x7b\"content\":\"Hello \"\x7d\x7d]\x7d\n\ndata: \x7b\"choices\":[\x7b\"delta\":\x7b\"content\":\"world\"\x7d\x7d]\x7d\n\n[DONE]"] =
      strL "Hello world" :=
  ⟨readFullResponse_concat_before_done _
      [strL "data: \x7b\"choices\":[\x7b\"delta\":\x7b\"content\":\"Hello \"\x7d\x7d]\x7d",
       strL "data: \x7b\"choices\":[\x7b\"delta\":\x7b\"content\":\"world\"\x7d\x7d]\x7d"]
      [] (strL "[DONE]") (by decide) (by decide) (by decide),
   by decide⟩

/-- **C1 (counterexample)**: a chunk stream whose payloads are two
well-formed `data:` payloads followed by the literal `[DONE]` sentinel.
The first payload's content is `a[DONE]b`, so its raw text contains the
substring `[DONE]`; `readFullResponse` stops there and returns the
empty string instead of the concatenation `a[DONE]bX` of the deltas of
the payloads preceding the sentinel, refuting the claim as stated. -/
theorem readFullResponse_done_substring_cex :
    (payloadsOfChunks
        [strL "data: \x7b\"choices\":[\x7b\"delta\":\x7b\"content\":\"a[DONE]b\"\x7d\x7d]\x7d\n\ndata: \x7b\"choices\":[\x7b\"delta\":\x7b\"content\":\"X\"\x7d\x7d]\x7d\n\n[DONE]"] =
      [strL "data: \x7b\"choices\":[\x7b\"delta\":\x7b\"content\":\"a[DONE]b\"\x7d\x7d]\x7d",
       strL "data: \x7b\"choices\":[\x7b\"delta\":\x7b\"content\":\"X\"\x7d\x7d]\x7d",
       strL "[DONE]"]) ∧
    leadsWith dataTag (strL "data: \x7b\"choices\":[\x7b\"delta\":\x7b\"content\":\"a[DONE]b\"\x7d\x7d]\x7d") = true ∧
    parseContent (strL "data: \x7b\"choices\":[\x7b\"delta\":\x7b\"content\":\"a[DONE]b\"\x7d\x7d]\x7d") = strL "a[DONE]b" ∧
    parseContent (strL "data: \x7b\"choices\":[\x7b\"delta\":\x7b\"content\":\"X\"\x7d\x7d]\x7d") = strL "X" ∧
    readFullResponse
        [strL "data: \x7b\"choices\":[\x7b\"delta\":\x7b\"content\":\"a[DONE]b\"\x7d\x7d]\x7d\n\ndata: \x7b\"choices\":[\x7b\"delta\":\x7b\"content\":\"X\"\x7d\x7d]\x7d\n\n[DONE]"] =
      [] ∧
    ([] : Str) ≠ strL "a[DONE]b" ++ strL "X" := by
  refine ⟨by decide, by decide, by decide, by decide, by decide, by decide⟩

/-- **C6**: a payload whose text lacks `[DONE]` and which does not
start with `data:` is skipped with no contribution to the output; a
`data:` payload whose remainder fails to parse as JSON produces, in
place of an exception, a diagnostic string embedding the raw payload
and the error; that diagnostic is ordinary content: the loop appends
it and continues with the remaining payloads.  (A payload containing
the `[DONE]` substring never reaches the decoder: the terminator check
runs first, see the C1 theorems.) -/
theorem parseContent_fail_open :
    (∀ p ps acc, leadsWith dataTag p = false → hasSub doneMark p = false →
        frPayloads acc (p :: ps) = frPayloads acc ps) ∧
    (∀ p e, jsonParseJs (jsTrim (stripDataTag p)) = .error e →
        parseContent p =
          strL "Error with JSON.parse and " ++ p ++ strL ".\n" ++ e) ∧
    (∀ p ps acc, leadsWith dataTag p = true → hasSub doneMark p = false →
        frPayloads acc (p :: ps) = frPayloads (acc ++ parseContent p) ps) := by
  refine ⟨?_, ?_, ?_⟩
  · intro p ps acc hdata hdone
    simp [frPayloads, hdata, hdone]
  · intro p e herr
    simp [parseContent, herr, Except.bind]
  · intro p ps acc hdata hdone
    simp [frPayloads, hdata, hdone]

/-- Witness for C6 at concrete payloads. -/
theorem parseContent_fail_open_witness :
    frPayloads [] [strL "event: ping", strL "[DONE]"] =
      frPayloads [] [strL "[DONE]"] ∧
    parseContent (strL "data: not json") =
      strL "Error with JSON.parse and data: not json.\nSyntaxError: unexpected token" ∧
    frPayloads [] [strL "data: not json", strL "[DONE]"] =
      frPayloads ([] ++ parseContent (strL "data: not json")) [strL "[DONE]"] := by
  refine ⟨parseContent_fail_open.1 _ _ _ (by decide) (by decide), ?_, ?_⟩
  · rw [parseContent_fail_open.2.1 (strL "data: not json")
        (strL "SyntaxError: unexpected token") (by rfl)]
    decide
  · exact parseContent_fail_open.2.2 _ _ _ (by decide) (by decide)

-- ### `generateCompletion`: the outgoing request

/-- A chat message as sent to the completion endpoint. -/
structure ChatMessage where
  role : Str
  content : Str

/-- The body of the outgoing `createChatCompletion` request. -/
structure CompletionRequestBody where
  model : Str
  messages : List ChatMessage
  n : Int
  stream : Bool

/-- The request constructed by `generateCompletion` (source lines
138-148): `model: model || 'gpt-4o-mini'` (JavaScript `||`, so an
absent or empty model falls back), a message-array prompt is passed
through while a plain prompt is wrapped as a single user message, and
`n: Math.min(number, 10)`. -/
def buildCompletionRequest (prompt : Str ⊕ List ChatMessage)
    (number : Int) (modelArg : Option Str) : CompletionRequestBody :=
  { model := match modelArg with
             | some m => if m = [] then strL "gpt-4o-mini" else m
             | none => strL "gpt-4o-mini"
    messages := match prompt with
                | .inr ms => ms
                | .inl p => [⟨strL "user", p⟩]
    n := min number 10
    stream := true }

/-- **C7 (amended)**: the count sent is `Math.min(completionCount,
10)`: it never exceeds 10 (15 is clamped to 10) and a count that is at
least 1 stays in `[1, 10]`, but a count below 1 is sent unchanged
rather than raised to 1. -/
theorem completion_count_clamp (prompt : Str ⊕ List ChatMessage)
    (number : Int) (modelArg : Option Str) :
    (buildCompletionRequest prompt number modelArg).n ≤ 10 ∧
    (1 ≤ number → 1 ≤ (buildCompletionRequest prompt number modelArg).n ∧
      (buildCompletionRequest prompt number modelArg).n ≤ 10) ∧
    (number < 1 → (buildCompletionRequest prompt number modelArg).n = number) ∧
    (buildCompletionRequest prompt 15 modelArg).n = 10 := by
  refine ⟨?_, fun h => ⟨?_, ?_⟩, fun h => ?_, ?_⟩ <;>
    simp [buildCompletionRequest] <;> omega

/-- Witness for C7 (amended) at counts 15 and 0. -/
theorem completion_count_clamp_witness :
    (buildCompletionRequest (.inl (strL "hi")) 15 none).n = 10 ∧
    ((1 : Int) ≤ 3 → 1 ≤ (buildCompletionRequest (.inl (strL "hi")) 3 none).n ∧
      (buildCompletionRequest (.inl (strL "hi")) 3 none).n ≤ 10) ∧
    ((0 : Int) < 1 → (buildCompletionRequest (.inl (strL "hi")) 0 none).n = 0) :=
  ⟨(completion_count_clamp (.inl (strL "hi")) 15 none).2.2.2,
   (completion_count_clamp (.inl (strL "hi")) 3 none).2.1,
   (completion_count_clamp (.inl (strL "hi")) 0 none).2.2.1⟩

/-- **C7 (counterexample)**: a caller-supplied `completionCount` of 0
is sent as 0, outside `[1, 10]`: `Math.min(number, 10)` never raises a
low count to 1, refuting the claim as stated. -/
theorem completion_count_below_one_cex :
    (buildCompletionRequest (.inl (strL "hi")) 0 none).n = 0 ∧
    ¬ (1 ≤ (buildCompletionRequest (.inl (strL "hi")) 0 none).n) := by
  refine ⟨by decide, by decide⟩

-- ### The `dedent` template tag

/-- `result.split("\n")` as the `dedent` package performs it. -/
def lineSplit : Str → List Str
  | [] => [[]]
  | c :: rest =>
    if c = '\n' then [] :: lineSplit rest
    else
      match lineSplit rest with
      | [] => [[c]]
      | l :: ls => (c :: l) :: ls

/-- The indent `dedent` measures on one line, `l.match(/^(\s+)\S+/)`:
the length of the leading whitespace run when the line starts with
whitespace and still carries a non-whitespace character. -/
def lineIndent (l : Str) : Option Nat :=
  let r := (l.takeWhile isJsSpace).length
  if r = 0 ∨ r = l.length then none else some r

/-- The smallest measured indent over all lines. -/
def dedentMin (lines : List Str) : Option Nat :=
  lines.foldl
    (fun acc l =>
      match lineIndent l, acc with
      | none, a => a
      | some i, none => some i
      | some i, some m => some (Nat.min m i))
    none

/-- One line of the `dedent` map: a line whose first character is a
space (exactly `l[0] === " "`) loses `m` characters. -/
def dedentSlice (m : Nat) (l : Str) : Str :=
  if l.head? = some ' ' then l.drop m else l

/-- `lines.join("\n")`. -/
def lineJoin (ls : List Str) : Str := joinSep ['\n'] ls

/-- `.replace(/\\n/g, "\n")`, the final step of `dedent`: every
backslash-`n` pair becomes a newline, left to right. -/
def replBackslashN : Str → Str
  | [] => []
  | [c] => [c]
  | c :: d :: rest =>
    if c = '\\' ∧ d = 'n' then '\n' :: replBackslashN rest
    else c :: replBackslashN (d :: rest)

/-- Models the `dedent` npm package (v0.7) applied to an
already-interpolated template: measure the smallest indent of the
lines bearing non-whitespace, strip it from space-initial lines, trim,
and convert literal backslash-`n` pairs to newlines.  (The raw-level
steps of `dedent` - removing escaped line continuations and unescaping
backticks - are pre-applied in the template constants below, which
hold the raw template text of the source.) -/
def dedentJs (s : Str) : Str :=
  let lines := lineSplit s
  let s1 :=
    match dedentMin lines with
    | none => s
    | some m => lineJoin (lines.map (dedentSlice m))
  replBackslashN (jsTrim s1)

-- ### Decimal rendering of integers

/-- One decimal digit character. -/
def decDigit (k : Nat) : Char :=
  (['0', '1', '2', '3', '4', '5', '6', '7', '8', '9'] : List Char).getD k '0'

/-- Decimal digits of `n`, most significant first (fuel recursion). -/
def natDecDigits : Nat → Nat → Str
  | 0, _ => []
  | fuel + 1, n =>
    if n = 0 then [] else natDecDigits fuel (n / 10) ++ [decDigit (n % 10)]

/-- Decimal rendering of a natural number. -/
def natToStr (n : Nat) : Str :=
  if n = 0 then ['0'] else natDecDigits (n + 1) n

/-- Decimal rendering of an integer, as JavaScript template
interpolation renders `response?.status`. -/
def intToStr (i : Int) : Str :=
  if i < 0 then '-' :: natToStr (-i).toNat else natToStr i.toNat

-- ### The catch block of `generateCompletion`

/-- Modelled from the spec: `streamToString`
(`src/helpers/stream-to-string.ts` is not under `src/`): the error
body stream "is read fully" into one string, i.e. its chunks are
concatenated. -/
def streamToString (chunks : List Str) : Str := chunks.flatten

/-- The shape of `error.response.data` on an axios error: a body
stream (`IncomingMessage`), plain text, or an already-decoded JSON
value. -/
inductive ResponseBody where
  | stream (chunks : List Str)
  | text (s : Str)
  | jsonVal (j : Json)

/-- The request information axios attaches to a connection failure. -/
structure AxiosRequestInfo where
  hostname : Str
  syscall : Str

/-- An HTTP response attached to an axios error. -/
structure AxiosResponse where
  status : Int
  data : ResponseBody

/-- The axios error caught by `generateCompletion`. -/
structure AxiosError where
  code : Option Str
  request : AxiosRequestInfo
  response : Option AxiosResponse

/-- Outcome of the catch block: a `KnownError` with a message, or the
original error re-thrown. -/
inductive CompletionErrorResult where
  | known (msg : Str)
  | rethrown (e : AxiosError)

/-- `let message = response?.data` and the `IncomingMessage` branch
(source lines 160-173): a stream body is read fully to a string and
then JSON-decoded when possible, staying raw text otherwise. -/
def completionErrMessage (response : Option AxiosResponse) : Option Json :=
  match response with
  | none => none
  | some r =>
    match r.data with
    | .stream cs =>
      match jsonParseJs (streamToString cs) with
      | .ok j => some j
      | .error _ => some (.str (streamToString cs))
    | .text s => some (.str s)
    | .jsonVal j => some j

/-- Is the numeric value of a JSON number lexeme zero (every mantissa
digit is `0`)? -/
def numLexemeZero (raw : Str) : Bool :=
  ((raw.takeWhile (fun c => c ≠ 'e' ∧ c ≠ 'E')).filter Char.isDigit).all (· = '0')

/-- JavaScript truthiness of the decoded body value. -/
def jsTruthyJ : Json → Bool
  | .null => false
  | .bool b => b
  | .num raw => !(numLexemeZero raw)
  | .str s => !s.isEmpty
  | .arr _ => true
  | .obj _ => true

/-- `message && JSON.stringify(message, null, 2)` (source line 175) as
later coerced by string concatenation: a truthy message is
pretty-printed, a falsy one is coerced directly (`null` prints as
`null`, an absent message as `undefined`). -/
def messageText (m : Option Json) : Str :=
  match m with
  | none => strL "undefined"
  | some j => if jsTruthyJ j then jsonStringify2 j else jsCoerceStr j

/-- Raw text of the quota-error `dedent` template (source lines
178-184). -/
def quotaTemplate : Str :=
  strL "\n        Request to OpenAI failed with status 429. This is due to incorrect billing setup or excessive quota usage. Please follow this guide to fix it: https://help.openai.com/en/articles/6891831-error-code-429-you-exceeded-your-current-quota-please-check-your-plan-and-billing-details\n\n        You can activate billing here: https://platform.openai.com/account/billing/overview . Make sure to add a payment method if not under an active grant from OpenAI.\n\n        Full message from OpenAI:\n      "

/-- Raw text of the generic upstream-error `dedent` template (source
lines 191-193), with the rendered status interpolated. -/
def statusTemplate (s : Str) : Str :=
  strL "\n        Request to OpenAI failed with status " ++ s ++ strL ":\n      "

/-- The catch block of `generateCompletion` (source lines 151-201):
`ENOTFOUND` first, then the HTTP 429 quota branch, then the generic
`response && message` branch, otherwise the error is re-thrown. -/
def mapCompletionError (e : AxiosError) : CompletionErrorResult :=
  if e.code = some (strL "ENOTFOUND") then
    .known (strL "Error connecting to " ++ e.request.hostname ++ strL " (" ++
      e.request.syscall ++ strL "). Are you connected to the internet?")
  else
    let message := completionErrMessage e.response
    match e.response with
    | some r =>
      if r.status = 429 then
        .known (dedentJs quotaTemplate ++ strL "\n\n" ++
          messageText message ++ strL "\n")
      else if (match message with | some j => jsTruthyJ j | none => false) then
        .known (dedentJs (statusTemplate (intToStr r.status)) ++ strL "\n\n" ++
          messageText message ++ strL "\n")
      else .rethrown e
    | none => .rethrown e

-- ### Lemmas for the dedent computation on the status template

theorem takeWhile_append_stop (p : Char → Bool) (x y : Str)
    (h : (x.takeWhile p).length < x.length) :
    (x ++ y).takeWhile p = x.takeWhile p := by
  induction x with
  | nil => simp at h
  | cons c t ih =>
    by_cases hc : p c = true
    · rw [List.cons_append, List.takeWhile_cons_of_pos hc,
        List.takeWhile_cons_of_pos hc]
      rw [List.takeWhile_cons_of_pos hc, List.length_cons, List.length_cons] at h
      rw [ih (by omega)]
    · rw [List.cons_append, List.takeWhile_cons_of_neg hc,
        List.takeWhile_cons_of_neg hc]

theorem lineSplit_ne_nil (l : Str) : lineSplit l ≠ [] := by
  cases l with
  | nil => simp [lineSplit]
  | cons c t =>
    simp only [lineSplit]
    by_cases hc : c = '\n'
    · simp [hc]
    · simp only [hc, if_false]
      cases lineSplit t <;> simp

theorem lineSplit_nlfree (l : Str) (h : '\n' ∉ l) : lineSplit l = [l] := by
  induction l with
  | nil => rfl
  | cons c t ih =>
    have hc : c ≠ '\n' := fun hh => h (hh ▸ List.mem_cons_self c t)
    have ht : '\n' ∉ t := fun hh => h (List.mem_cons_of_mem c hh)
    simp only [lineSplit, hc, if_false]
    rw [ih ht]

theorem lineSplit_append_nl (a b : Str) (h : '\n' ∉ a) :
    lineSplit (a ++ '\n' :: b) = a :: lineSplit b := by
  induction a with
  | nil =>
    simp [lineSplit]
  | cons c t ih =>
    have hc : c ≠ '\n' := fun hh => h (hh ▸ List.mem_cons_self c t)
    have ht : '\n' ∉ t := fun hh => h (List.mem_cons_of_mem c hh)
    rw [List.cons_append]
    simp only [lineSplit, hc, if_false]
    rw [ih ht]

theorem replBackslashN_cons_ne (c : Char) (t : Str) (h : c ≠ '\\') :
    replBackslashN (c :: t) = c :: replBackslashN t := by
  cases t with
  | nil => rfl
  | cons d t2 =>
    simp only [replBackslashN]
    rw [if_neg (by simp [h])]

theorem replBackslashN_id (l : Str) (h : '\\' ∉ l) : replBackslashN l = l := by
  induction l with
  | nil => rfl
  | cons c t ih =>
    have hc : c ≠ '\\' := fun hh => h (hh ▸ List.mem_cons_self c t)
    have ht : '\\' ∉ t := fun hh => h (List.mem_cons_of_mem c hh)
    rw [replBackslashN_cons_ne c t hc, ih ht]

theorem decDigit_ne (k : Nat) : decDigit k ≠ '\n' ∧ decDigit k ≠ '\\' := by
  by_cases h : k < 10
  · interval_cases k <;> exact ⟨by decide, by decide⟩
  · have : decDigit k = '0' := by
      unfold decDigit
      rw [List.getD_eq_default]
      simp only [List.length_cons, List.length_nil]
      omega
    rw [this]
    exact ⟨by decide, by decide⟩

theorem natDecDigits_chars (fuel : Nat) :
    ∀ n c, c ∈ natDecDigits fuel n → c ≠ '\n' ∧ c ≠ '\\' := by
  induction fuel with
  | zero => intro n c hc; simp [natDecDigits] at hc
  | succ f ih =>
    intro n c hc
    by_cases hn : n = 0
    · subst hn; simp [natDecDigits] at hc
    · simp only [natDecDigits, hn, if_false] at hc
      rcases List.mem_append.mp hc with h | h
      · exact ih _ _ h
      · rcases List.mem_singleton.mp h with rfl
        exact decDigit_ne _

theorem intToStr_chars (i : Int) :
    '\n' ∉ intToStr i ∧ '\\' ∉ intToStr i := by
  have hnat : ∀ n : Nat, '\n' ∉ natToStr n ∧ '\\' ∉ natToStr n := by
    intro n
    unfold natToStr
    by_cases hn : n = 0
    · subst hn; exact ⟨by decide, by decide⟩
    · simp only [hn, if_false]
      constructor
      · intro hmem
        exact (natDecDigits_chars (n + 1) n _ hmem).1 rfl
      · intro hmem
        exact (natDecDigits_chars (n + 1) n _ hmem).2 rfl
  unfold intToStr
  by_cases hi : i < 0
  · simp only [hi, if_true]
    constructor
    · intro hmem
      rcases List.mem_cons.mp hmem with h | h
      · exact absurd h.symm (by decide)
      · exact (hnat _).1 h
    · intro hmem
      rcases List.mem_cons.mp hmem with h | h
      · exact absurd h.symm (by decide)
      · exact (hnat _).2 h
  · simp only [hi, if_false]
    exact hnat _

/-- Evaluating the `dedent` tag on the generic-error template: for any
interpolated status text without newlines or backslashes the result is
the single dedented line. -/
theorem dedentJs_statusTemplate (s : Str) (h1 : '\n' ∉ s) (h2 : '\\' ∉ s) :
    dedentJs (statusTemplate s) =
      strL "Request to OpenAI failed with status " ++ s ++ [':'] := by
  have hA : strL "\n        Request to OpenAI failed with status " =
      '\n' :: (strL "        " ++ strL "Request to OpenAI failed with status ") := by
    decide
  have hB : strL ":\n      " = ':' :: ('\n' :: strL "      ") := by decide
  set sp8 : Str := strL "        " with hsp8
  set core : Str := strL "Request to OpenAI failed with status " with hcore
  set trail : Str := strL "      " with htrail
  set X : Str := (sp8 ++ core) ++ (s ++ [':']) with hX
  set Y : Str := core ++ (s ++ [':']) with hY
  have hshape : statusTemplate s = '\n' :: (X ++ ('\n' :: trail)) := by
    rw [statusTemplate, hA, hB, hX]
    simp [List.append_assoc]
  have hnlX : '\n' ∉ X := by
    rw [hX]
    intro hmem
    rcases List.mem_append.mp hmem with hm | hm
    · rcases List.mem_append.mp hm with hm2 | hm2
      · revert hm2; rw [hsp8]; decide
      · revert hm2; rw [hcore]; decide
    · rcases List.mem_append.mp hm with hm2 | hm2
      · exact h1 hm2
      · revert hm2; decide
  have hls : lineSplit (statusTemplate s) = [[], X, trail] := by
    rw [hshape]
    have h0 : lineSplit ('\n' :: (X ++ ('\n' :: trail))) =
        [] :: lineSplit (X ++ ('\n' :: trail)) := by
      simp [lineSplit]
    rw [h0, lineSplit_append_nl _ _ hnlX, lineSplit_nlfree]
    rw [htrail]; decide
  have htw : X.takeWhile isJsSpace = sp8 := by
    rw [hX, takeWhile_append_stop isJsSpace (sp8 ++ core) _
      (by rw [hsp8, hcore]; decide)]
    rw [hsp8, hcore]; decide
  have hXlen : 46 ≤ X.length := by
    rw [hX]
    simp only [List.length_append, List.length_cons]
    have e1 : sp8.length = 8 := by rw [hsp8]; decide
    have e2 : core.length = 37 := by rw [hcore]; decide
    omega
  have hindX : lineIndent X = some 8 := by
    unfold lineIndent
    rw [htw]
    have e1 : sp8.length = 8 := by rw [hsp8]; decide
    rw [e1]
    rw [if_neg (by push_neg; exact ⟨by omega, by omega⟩)]
  have hmin : dedentMin [[], X, trail] = some 8 := by
    have he : lineIndent ([] : Str) = none := by decide
    have htr : lineIndent trail = none := by rw [htrail]; decide
    simp [dedentMin, hindX, he, htr]
  have hsX : dedentSlice 8 X = Y := by
    have hXcons : X = ' ' :: ((strL "       " ++ core) ++ (s ++ [':'])) := by
      rw [hX, hsp8]
      have : strL "        " = ' ' :: strL "       " := by decide
      rw [this]
      simp [List.append_assoc]
    unfold dedentSlice
    rw [hXcons, List.head?_cons, if_pos rfl, ← hXcons, hX, List.append_assoc]
    have h8 : (8 : Nat) = sp8.length := by rw [hsp8]; decide
    rw [h8, List.drop_left, hY]
  have hsE : dedentSlice 8 ([] : Str) = [] := by decide
  have hsT : dedentSlice 8 trail = [] := by rw [htrail]; decide
  have hjoin : lineJoin [[], Y, []] = '\n' :: (Y ++ ['\n']) := by
    simp [lineJoin, joinSep]
  have hYcons : Y = 'R' :: (strL "equest to OpenAI failed with status " ++ (s ++ [':'])) := by
    rw [hY, hcore]
    have : strL "Request to OpenAI failed with status " =
        'R' :: strL "equest to OpenAI failed with status " := by decide
    rw [this]
    simp
  have hnbY : '\\' ∉ Y := by
    rw [hY]
    intro hmem
    rcases List.mem_append.mp hmem with hm | hm
    · revert hm; rw [hcore]; decide
    · rcases List.mem_append.mp hm with hm2 | hm2
      · exact h2 hm2
      · revert hm2; decide
  have htrim : jsTrim ('\n' :: (Y ++ ['\n'])) = Y := by
    unfold jsTrim
    have hfront : List.dropWhile isJsSpace ('\n' :: (Y ++ ['\n'])) =
        Y ++ ['\n'] := by
      rw [List.dropWhile_cons_of_pos (by decide)]
      rw [hYcons, List.cons_append]
      rw [List.dropWhile_cons_of_neg (by decide)]
    rw [hfront]
    have hrev : (Y ++ ['\n']).reverse = '\n' :: Y.reverse := by
      simp
    rw [hrev, List.dropWhile_cons_of_pos (by decide)]
    have hrevY : Y.reverse = ':' :: (s.reverse ++ core.reverse) := by
      rw [hY]
      simp [List.reverse_append]
    rw [hrevY, List.dropWhile_cons_of_neg (by decide), ← hrevY,
      List.reverse_reverse]
  rw [dedentJs, hls, hmin]
  simp only [List.map, hsE, hsX, hsT]
  rw [hjoin, htrim, replBackslashN_id Y hnbY, hY, hcore]
  exact (List.append_assoc _ _ _).symm

/-- **C5 (amended)**: the catch block checks, in order: an `ENOTFOUND`
(name-resolution) failure yields a known error naming the failed host;
an HTTP 429 response yields the known quota/billing error embedding
the upstream body text; any other HTTP error response whose body
decodes to a truthy value yields a known error embedding the status
code and the body text; every other failure - including a response
whose body decodes to a falsy JSON value such as `null` - is re-thrown
unchanged. -/
theorem mapCompletionError_spec (e : AxiosError) :
    (e.code = some (strL "ENOTFOUND") →
      ∃ m, mapCompletionError e = .known m ∧
        hasSub e.request.hostname m = true) ∧
    (e.code ≠ some (strL "ENOTFOUND") →
      ∀ r, e.response = some r → r.status = 429 →
      ∃ m, mapCompletionError e = .known m ∧
        hasSub (strL "429") m = true ∧
        hasSub (messageText (completionErrMessage e.response)) m = true) ∧
    (e.code ≠ some (strL "ENOTFOUND") →
      ∀ r j, e.response = some r → r.status ≠ 429 →
        completionErrMessage e.response = some j → jsTruthyJ j = true →
      ∃ m, mapCompletionError e = .known m ∧
        hasSub (intToStr r.status) m = true ∧
        hasSub (messageText (completionErrMessage e.response)) m = true) ∧
    (e.code ≠ some (strL "ENOTFOUND") → e.response = none →
      mapCompletionError e = .rethrown e) ∧
    (e.code ≠ some (strL "ENOTFOUND") →
      ∀ r j, e.response = some r → r.status ≠ 429 →
        completionErrMessage e.response = some j → jsTruthyJ j = false →
      mapCompletionError e = .rethrown e) := by
  refine ⟨?_, ?_, ?_, ?_, ?_⟩
  · intro hcode
    refine ⟨_, by rw [mapCompletionError, if_pos hcode], ?_⟩
    have hshape :
        strL "Error connecting to " ++ e.request.hostname ++ strL " (" ++
          e.request.syscall ++ strL "). Are you connected to the internet?" =
        strL "Error connecting to " ++ e.request.hostname ++
          (strL " (" ++ (e.request.syscall ++
            strL "). Are you connected to the internet?")) := by
      simp [List.append_assoc]
    rw [hshape]
    exact hasSub_append_mid _ _ _
  · intro hcode r hr hst
    refine ⟨dedentJs quotaTemplate ++ strL "\n\n" ++
      messageText (completionErrMessage e.response) ++ strL "\n", ?_, ?_, ?_⟩
    · rw [mapCompletionError, if_neg hcode]
      simp only [hr]
      rw [if_pos hst]
    · have h429 : hasSub (strL "429") (dedentJs quotaTemplate) = true := by decide
      exact hasSub_append_right _ _ _
        (hasSub_append_right _ _ _ (hasSub_append_right _ _ _ h429))
    · exact hasSub_append_mid _ _ _
  · intro hcode r j hr hst hmsg htru
    refine ⟨dedentJs (statusTemplate (intToStr r.status)) ++ strL "\n\n" ++
      messageText (completionErrMessage e.response) ++ strL "\n", ?_, ?_, ?_⟩
    · rw [mapCompletionError, if_neg hcode]
      simp only [hr]
      rw [if_neg hst]
      rw [hr] at hmsg
      simp only [hmsg, htru, if_true]
    · rw [dedentJs_statusTemplate _ (intToStr_chars _).1 (intToStr_chars _).2]
      have hshape :
          strL "Request to OpenAI failed with status " ++ intToStr r.status ++
              [':'] ++ strL "\n\n" ++
              messageText (completionErrMessage e.response) ++ strL "\n" =
          strL "Request to OpenAI failed with status " ++ intToStr r.status ++
            ([':'] ++ strL "\n\n" ++
              (messageText (completionErrMessage e.response) ++ strL "\n")) := by
        simp [List.append_assoc]
      rw [hshape]
      exact hasSub_append_mid _ _ _
    · exact hasSub_append_mid _ _ _
  · intro hcode hnone
    rw [mapCompletionError, if_neg hcode]
    simp only [hnone]
  · intro hcode r j hr hst hmsg htru
    rw [mapCompletionError, if_neg hcode]
    simp only [hr]
    rw [if_neg hst]
    rw [hr] at hmsg
    simp only [hmsg, htru, Bool.false_eq_true, if_false]

/-- Witness for C5 (amended): the three mapped branches and the
re-throw branch at concrete errors. -/
theorem mapCompletionError_spec_witness :
    (∃ m, mapCompletionError
        ⟨some (strL "ENOTFOUND"), ⟨strL "api.openai.com", strL "getaddrinfo"⟩,
          none⟩ = .known m ∧
      hasSub (strL "api.openai.com") m = true) ∧
    (∃ m, mapCompletionError
        ⟨none, ⟨strL "api.openai.com", strL "getaddrinfo"⟩,
          some ⟨429, .stream [strL "quota exceeded"]⟩⟩ = .known m ∧
      hasSub (strL "429") m = true ∧
      hasSub (messageText (completionErrMessage
        (some ⟨429, .stream [strL "quota exceeded"]⟩))) m = true) ∧
    (∃ m, mapCompletionError
        ⟨none, ⟨strL "api.openai.com", strL "getaddrinfo"⟩,
          some ⟨500, .stream [strL "\x7b\"error\":\"boom\"\x7d"]⟩⟩ = .known m ∧
      hasSub (intToStr 500) m = true ∧
      hasSub (messageText (completionErrMessage
        (some ⟨500, .stream [strL "\x7b\"error\":\"boom\"\x7d"]⟩))) m = true) ∧
    mapCompletionError
        ⟨none, ⟨strL "api.openai.com", strL "getaddrinfo"⟩, none⟩ =
      .rethrown ⟨none, ⟨strL "api.openai.com", strL "getaddrinfo"⟩, none⟩ := by
  refine ⟨?_, ?_, ?_, ?_⟩
  · exact (mapCompletionError_spec
      ⟨some (strL "ENOTFOUND"), ⟨strL "api.openai.com", strL "getaddrinfo"⟩,
        none⟩).1 rfl
  · exact (mapCompletionError_spec
      ⟨none, ⟨strL "api.openai.com", strL "getaddrinfo"⟩,
        some ⟨429, .stream [strL "quota exceeded"]⟩⟩).2.1
      (by simp) ⟨429, .stream [strL "quota exceeded"]⟩ rfl rfl
  · exact (mapCompletionError_spec
      ⟨none, ⟨strL "api.openai.com", strL "getaddrinfo"⟩,
        some ⟨500, .stream [strL "\x7b\"error\":\"boom\"\x7d"]⟩⟩).2.2.1
      (by simp) ⟨500, .stream [strL "\x7b\"error\":\"boom\"\x7d"]⟩
      (.obj [(strL "error", .str (strL "boom"))])
      rfl (by decide) rfl rfl
  · exact (mapCompletionError_spec
      ⟨none, ⟨strL "api.openai.com", strL "getaddrinfo"⟩, none⟩).2.2.2.1
      (by simp) rfl

/-- **C5 (counterexample)**: an HTTP 500 response carrying the
four-byte body `null` - an error response with a body - is re-thrown
unchanged instead of mapped to a known error containing the status and
the body: the body JSON-decodes to `null`, which is falsy, so the
`response && message` test fails and the final `throw error` runs,
refuting the claim as stated. -/
theorem mapCompletionError_null_body_cex :
    streamToString [strL "null"] = strL "null" ∧
    completionErrMessage (some ⟨500, .stream [strL "null"]⟩) = some .null ∧
    mapCompletionError
        ⟨none, ⟨strL "api.openai.com", strL "getaddrinfo"⟩,
          some ⟨500, .stream [strL "null"]⟩⟩ =
      .rethrown ⟨none, ⟨strL "api.openai.com", strL "getaddrinfo"⟩,
        some ⟨500, .stream [strL "null"]⟩⟩ := by
  exact ⟨by decide, rfl, rfl⟩

-- ### `readData`: the interactive streaming reader

/-- A caller-supplied exclusion pattern (a `RegExp` or a non-empty
string; such a value is truthy in JavaScript): `test` models
`buffer.match(pattern)` being truthy - the pattern matches somewhere
in the string - and `strip` models removing every match from a
fragment. -/
structure JsPattern where
  test : Str → Bool
  strip : Str → Str

/-- `buffer.match(excludedPrefix ?? '')` (source line 315): with no
first pattern the empty-string pattern is used, and the empty regex
matches every string. -/
def patTest (p : Option JsPattern) (buf : Str) : Bool :=
  match p with
  | none => true
  | some q => q.test buf

/-- Modelled from the spec: `stripRegexPatterns`
(`src/helpers/strip-regex-patterns.ts` is not under `src/`): strips
every match of each supplied exclusion pattern from the forwarded
fragment; absent (`undefined`) entries contribute nothing. -/
def stripRegexPatterns (content : Str) (pats : List (Option JsPattern)) : Str :=
  pats.foldl
    (fun acc p =>
      match p with
      | none => acc
      | some q => q.strip acc)
    content

/-- The mutable state of one `readData` run: the `dataStart` flag, the
boundary `buffer`, and the accumulated clean `data`. -/
structure RDState where
  dataStart : Bool
  buffer : Str
  data : Str

/-- Result of the payload loop of `readData` on one chunk: an early
`resolve`, a `break` out of the payload loop (discarding the rest of
the chunk), or normal exhaustion of the chunk.  The fragment list
collects what was pushed to the sink, most recent first. -/
inductive RDStep where
  | resolved (d : Str) (evs : List Str)
  | broke (st : RDState) (evs : List Str)
  | next (st : RDState) (evs : List Str)

/-- The payload loop of `readData` (source lines 302-333). -/
def rdPayloads (exF : Option JsPattern) (ex : List (Option JsPattern))
    (stopNow : Bool) : List Str → RDState → List Str → RDStep
  | [], st, evs => .next st evs
  | p :: ps, st, evs =>
    if hasSub doneMark p || stopNow then .resolved st.data evs
    else if leadsWith dataTag p then
      let content := parseContent p
      if st.dataStart then
        if content ≠ [] then
          let cw := stripRegexPatterns content ex
          rdPayloads exF ex stopNow ps ⟨true, st.buffer, st.data ++ cw⟩ (cw :: evs)
        else rdPayloads exF ex stopNow ps st evs
      else
        let buf := st.buffer ++ content
        if patTest exF buf then
          if exF.isSome then .broke ⟨true, [], st.data⟩ evs
          else
            if content ≠ [] then
              let cw := stripRegexPatterns content ex
              rdPayloads exF ex stopNow ps ⟨true, [], st.data ++ cw⟩ (cw :: evs)
            else rdPayloads exF ex stopNow ps ⟨true, [], st.data⟩ evs
        else rdPayloads exF ex stopNow ps ⟨false, buf, st.data⟩ evs
    else rdPayloads exF ex stopNow ps st evs

/-- The chunk loop of `readData` (source lines 300-336): `stop i` is
the value of the `stopTextStream` flag while chunk `i` is processed
(the keypress listener only runs between chunks, at the `for await`
suspension points, so it is constant within a chunk). -/
def rdChunks (exF : Option JsPattern) (ex : List (Option JsPattern))
    (stop : Nat → Bool) : Nat → List Str → RDState → List Str → Str × List Str
  | _, [], st, evs => (st.data, evs.reverse)
  | i, c :: cs, st, evs =>
    match rdPayloads exF ex (stop i) (splitPayloads [] c) st evs with
    | .resolved d evs2 => (d, evs2.reverse)
    | .broke st2 evs2 => rdChunks exF ex stop (i + 1) cs st2 evs2
    | .next st2 evs2 => rdChunks exF ex stop (i + 1) cs st2 evs2

/-- `readData` (source lines 273-337), as the function from the
exclusion-pattern list, the cancellation-flag schedule and the chunk
sequence to the resolved text and the fragment sequence pushed to the
sink (`const [excludedPrefix] = excluded`). -/
def readData (ex : List (Option JsPattern)) (stop : Nat → Bool)
    (chunks : List Str) : Str × List Str :=
  rdChunks (ex.headD none) ex stop 0 chunks ⟨false, [], []⟩ []

-- ### C8: terminal resources

/-- Terminal and resource actions a `readData` run can perform. -/
inductive TermAction where
  | createInterface
  | setRawMode (b : Bool)
  | addKeypressListener
  | removeKeypressListener
  | closeInterface
deriving DecidableEq

/-- The resource-action trace of one `readData` run: on entry the
readline interface is created, stdin raw mode is enabled, and the
keypress listener is installed (source lines 289-299); no exit path -
resolve on `[DONE]`, resolve on cancellation, or loop exhaustion -
performs any teardown (`rl.close()`, `setRawMode(false)` and listener
removal appear nowhere in `readData`), so the exit contributes an
empty suffix on every path. -/
def readDataActions (ex : List (Option JsPattern)) (stop : Nat → Bool)
    (chunks : List Str) : List TermAction :=
  [.createInterface, .setRawMode true, .addKeypressListener] ++
    (match readData ex stop chunks with
     | (_, _) => [])

/-- **C8** fails on the code: on every run - the `[DONE]` exit
included - raw mode is enabled but never restored, the keypress
listener is never removed and the readline interface is never closed. -/
theorem readData_no_terminal_cleanup :
    TermAction.setRawMode true ∈
      readDataActions [] (fun _ => false) [strL "[DONE]"] ∧
    TermAction.setRawMode false ∉
      readDataActions [] (fun _ => false) [strL "[DONE]"] ∧
    TermAction.closeInterface ∉
      readDataActions [] (fun _ => false) [strL "[DONE]"] ∧
    TermAction.removeKeypressListener ∉
      readDataActions [] (fun _ => false) [strL "[DONE]"] ∧
    ∀ ex stop chunks, readDataActions ex stop chunks =
      [.createInterface, .setRawMode true, .addKeypressListener] := by
  refine ⟨by decide, by decide, by decide, by decide, ?_⟩
  intro ex stop chunks
  simp [readDataActions]

-- ### C3: cancellation

theorem rdPayloads_stop (exF : Option JsPattern) (ex : List (Option JsPattern))
    (p : Str) (ps : List Str) (st : RDState) (evs : List Str) :
    rdPayloads exF ex true (p :: ps) st evs = .resolved st.data evs := by
  simp [rdPayloads]

theorem rdChunks_trunc (exF : Option JsPattern) (ex : List (Option JsPattern))
    (stop : Nat → Bool) (k : Nat) :
    ∀ (cs : List Str) (i : Nat) (st : RDState) (evs : List Str),
      (∀ j, j < k → stop (i + j) = false) → stop (i + k) = true →
      rdChunks exF ex stop i cs st evs =
        rdChunks exF ex (fun _ => false) i (cs.take k) st evs := by
  induction k with
  | zero =>
    intro cs i st evs _ hk
    cases cs with
    | nil => simp [rdChunks]
    | cons c cs2 =>
      obtain ⟨q, qs, hq⟩ := List.exists_cons_of_ne_nil (splitPayloads_ne_nil [] c)
      simp only [List.take_zero, rdChunks, hq]
      rw [Nat.add_zero] at hk
      rw [hk, rdPayloads_stop]
  | succ k2 ih =>
    intro cs i st evs hbefore hk
    cases cs with
    | nil => simp [rdChunks]
    | cons c cs2 =>
      have h0 : stop i = false := by
        have := hbefore 0 (Nat.succ_pos k2)
        simpa using this
      simp only [List.take_succ_cons, rdChunks, h0]
      cases rdPayloads exF ex false (splitPayloads [] c) st evs with
      | resolved d evs2 => rfl
      | broke st2 evs2 =>
        exact ih cs2 (i + 1) st2 evs2
          (fun j hj => by
            have := hbefore (j + 1) (Nat.succ_lt_succ hj)
            simpa [Nat.add_assoc, Nat.add_comm 1 j] using this)
          (by simpa [Nat.add_assoc, Nat.add_comm 1 k2] using hk)
      | next st2 evs2 =>
        exact ih cs2 (i + 1) st2 evs2
          (fun j hj => by
            have := hbefore (j + 1) (Nat.succ_lt_succ hj)
            simpa [Nat.add_assoc, Nat.add_comm 1 j] using this)
          (by simpa [Nat.add_assoc, Nat.add_comm 1 k2] using hk)

/-- **C3**: if the cancellation flag is first observed set while chunk
`k` is being processed, the run is exactly the run of the first `k`
chunks without cancellation: no fragment from chunk `k` or any later
chunk reaches the sink, and the promise resolves with exactly the text
accumulated before chunk `k`. -/
theorem readData_cancellation (ex : List (Option JsPattern))
    (stop : Nat → Bool) (chunks : List Str) (k : Nat)
    (hbefore : ∀ j, j < k → stop j = false) (hk : stop k = true) :
    readData ex stop chunks =
      readData ex (fun _ => false) (chunks.take k) := by
  unfold readData
  exact rdChunks_trunc _ ex stop k chunks 0 ⟨false, [], []⟩ []
    (fun j hj => by simpa using hbefore j hj) (by simpa using hk)

/-- Witness for C3: a flag set after the first chunk truncates a
two-chunk stream to its first chunk. -/
theorem readData_cancellation_witness :
    (∀ j, j < 1 → (fun i => decide (1 ≤ i)) j = false) ∧
    (fun i => decide (1 ≤ i)) 1 = true ∧
    readData [] (fun i => decide (1 ≤ i))
        [strL "data: \x7b\"choices\":[\x7b\"delta\":\x7b\"content\":\"A\"\x7d\x7d]\x7d",
         strL "data: \x7b\"choices\":[\x7b\"delta\":\x7b\"content\":\"B\"\x7d\x7d]\x7d"] =
      readData [] (fun _ => false)
        ([strL "data: \x7b\"choices\":[\x7b\"delta\":\x7b\"content\":\"A\"\x7d\x7d]\x7d",
          strL "data: \x7b\"choices\":[\x7b\"delta\":\x7b\"content\":\"B\"\x7d\x7d]\x7d"].take 1) ∧
    readData [] (fun i => decide (1 ≤ i))
        [strL "data: \x7b\"choices\":[\x7b\"delta\":\x7b\"content\":\"A\"\x7d\x7d]\x7d",
         strL "data: \x7b\"choices\":[\x7b\"delta\":\x7b\"content\":\"B\"\x7d\x7d]\x7d"] =
      (strL "A", [strL "A"]) := by
  refine ⟨by decide, by decide, ?_, by decide⟩
  exact readData_cancellation [] _ _ 1 (by decide) (by decide)

-- ### Lemmas about the `readData` loops

/-- The fragments `readData` forwards from a payload list once the
boundary has been crossed: the non-empty deltas, each with all
exclusion patterns stripped. -/
def forwardedOf (ex : List (Option JsPattern)) (ps : List Str) : List Str :=
  ((dataPayloadTexts ps).filter (fun d => d ≠ [])).map
    (fun d => stripRegexPatterns d ex)

theorem dataPayloadTexts_append (xs ys : List Str) :
    dataPayloadTexts (xs ++ ys) = dataPayloadTexts xs ++ dataPayloadTexts ys := by
  simp [dataPayloadTexts]

theorem dataPayloadTexts_cons_data {p : Str} (ps : List Str)
    (h : leadsWith dataTag p = true) :
    dataPayloadTexts (p :: ps) = parseContent p :: dataPayloadTexts ps := by
  simp [dataPayloadTexts, List.filter_cons, h]

theorem dataPayloadTexts_cons_skip {p : Str} (ps : List Str)
    (h : leadsWith dataTag p = false) :
    dataPayloadTexts (p :: ps) = dataPayloadTexts ps := by
  simp [dataPayloadTexts, List.filter_cons, h]

theorem forwardedOf_append (ex : List (Option JsPattern)) (xs ys : List Str) :
    forwardedOf ex (xs ++ ys) = forwardedOf ex xs ++ forwardedOf ex ys := by
  simp [forwardedOf, dataPayloadTexts_append]

theorem stripRegexPatterns_nil (c : Str) : stripRegexPatterns c [] = c := rfl

theorem rdPayloads_append (exF : Option JsPattern) (ex : List (Option JsPattern))
    (sn : Bool) (xs ys : List Str) :
    ∀ (st : RDState) (evs : List Str),
      rdPayloads exF ex sn (xs ++ ys) st evs =
        match rdPayloads exF ex sn xs st evs with
        | .resolved d e => .resolved d e
        | .broke st2 e => .broke st2 e
        | .next st2 e => rdPayloads exF ex sn ys st2 e := by
  induction xs with
  | nil => intro st evs; simp [rdPayloads]
  | cons p xs2 ih =>
    intro st evs
    simp only [List.cons_append, rdPayloads]
    by_cases h1 : (hasSub doneMark p || sn) = true
    · simp [h1]
    · simp only [h1, Bool.false_eq_true, if_false]
      by_cases h2 : leadsWith dataTag p = true
      · simp only [h2, if_true]
        by_cases h3 : st.dataStart = true
        · simp only [h3, if_true]
          by_cases h4 : parseContent p ≠ []
          · simp only [if_pos h4]; exact ih _ _
          · simp only [if_neg h4]; exact ih _ _
        · simp only [Bool.not_eq_true] at h3
          simp only [h3, Bool.false_eq_true, if_false]
          by_cases h5 : patTest exF (st.buffer ++ parseContent p) = true
          · simp only [h5, if_true]
            by_cases h6 : exF.isSome = true
            · simp [h6]
            · simp only [Bool.not_eq_true] at h6
              simp only [h6, Bool.false_eq_true, if_false]
              by_cases h7 : parseContent p ≠ []
              · simp only [if_pos h7]; exact ih _ _
              · simp only [if_neg h7]; exact ih _ _
          · simp only [Bool.not_eq_true] at h5
            simp only [h5, Bool.false_eq_true, if_false]
            exact ih _ _
      · simp only [Bool.not_eq_true] at h2
        simp only [h2, Bool.false_eq_true, if_false]
        exact ih _ _

theorem rdPayloads_buffering (P : JsPattern) (ex : List (Option JsPattern)) :
    ∀ (ps : List Str) (buf d : Str) (evs : List Str),
      (∀ q ∈ ps, hasSub doneMark q = false) →
      (∀ k, k ≤ (dataPayloadTexts ps).length →
        P.test (buf ++ ((dataPayloadTexts ps).take k).flatten) = false) →
      rdPayloads (some P) ex false ps ⟨false, buf, d⟩ evs =
        .next ⟨false, buf ++ (dataPayloadTexts ps).flatten, d⟩ evs := by
  intro ps
  induction ps with
  | nil =>
    intro buf d evs _ _
    simp [rdPayloads, dataPayloadTexts]
  | cons p ps2 ih =>
    intro buf d evs hdone hnm
    have hdp : hasSub doneMark p = false := hdone p (by simp)
    have hdps : ∀ q ∈ ps2, hasSub doneMark q = false :=
      fun q hq => hdone q (by simp [hq])
    simp only [rdPayloads, hdp, Bool.false_or]
    by_cases h2 : leadsWith dataTag p = true
    · simp only [h2, if_true, Bool.false_eq_true, if_false]
      have hΔ := dataPayloadTexts_cons_data ps2 h2
      have hstep : P.test (buf ++ parseContent p) = false := by
        have := hnm 1 (by rw [hΔ]; simp)
        rw [hΔ] at this
        simpa using this
      simp only [patTest, hstep, Bool.false_eq_true, if_false]
      rw [ih (buf ++ parseContent p) d evs hdps ?_]
      · rw [hΔ]
        simp [List.append_assoc]
      · intro k hk
        have := hnm (k + 1) (by rw [hΔ]; simpa using Nat.succ_le_succ hk)
        rw [hΔ] at this
        simpa [List.append_assoc] using this
    · simp only [Bool.not_eq_true] at h2
      simp only [h2, Bool.false_eq_true, if_false]
      have hΔ := dataPayloadTexts_cons_skip ps2 h2
      rw [ih buf d evs hdps (by rw [hΔ] at hnm; exact hnm)]
      rw [hΔ]

theorem forwardedOf_cons_data_ne {p : Str} (ex : List (Option JsPattern))
    (ps : List Str) (h : leadsWith dataTag p = true)
    (hne : parseContent p ≠ []) :
    forwardedOf ex (p :: ps) =
      stripRegexPatterns (parseContent p) ex :: forwardedOf ex ps := by
  simp [forwardedOf, dataPayloadTexts_cons_data ps h, List.filter_cons, hne]

theorem forwardedOf_cons_data_nil {p : Str} (ex : List (Option JsPattern))
    (ps : List Str) (h : leadsWith dataTag p = true)
    (hnil : parseContent p = []) :
    forwardedOf ex (p :: ps) = forwardedOf ex ps := by
  simp [forwardedOf, dataPayloadTexts_cons_data ps h, List.filter_cons, hnil]

theorem forwardedOf_cons_skip {p : Str} (ex : List (Option JsPattern))
    (ps : List Str) (h : leadsWith dataTag p = false) :
    forwardedOf ex (p :: ps) = forwardedOf ex ps := by
  simp [forwardedOf, dataPayloadTexts_cons_skip ps h]

theorem rdPayloads_post (exF : Option JsPattern) (ex : List (Option JsPattern)) :
    ∀ (ps : List Str) (b d : Str) (evs : List Str),
      (∀ q ∈ ps, hasSub doneMark q = false) →
      rdPayloads exF ex false ps ⟨true, b, d⟩ evs =
        .next ⟨true, b, d ++ (forwardedOf ex ps).flatten⟩
          ((forwardedOf ex ps).reverse ++ evs) := by
  intro ps
  induction ps with
  | nil =>
    intro b d evs _
    simp [rdPayloads, forwardedOf, dataPayloadTexts]
  | cons p ps2 ih =>
    intro b d evs hdone
    have hdp : hasSub doneMark p = false := hdone p (by simp)
    have hdps : ∀ q ∈ ps2, hasSub doneMark q = false :=
      fun q hq => hdone q (by simp [hq])
    simp only [rdPayloads, hdp, Bool.false_or, Bool.false_eq_true, if_false,
      if_true]
    by_cases h2 : leadsWith dataTag p = true
    · simp only [h2, if_true]
      by_cases h4 : parseContent p ≠ []
      · simp only [if_pos h4]
        rw [ih _ _ _ hdps,
          forwardedOf_cons_data_ne ex ps2 h2 h4]
        simp [List.append_assoc]
      · simp only [if_neg h4]
        simp only [Decidable.not_not] at h4
        rw [ih _ _ _ hdps, forwardedOf_cons_data_nil ex ps2 h2 h4]
    · simp only [Bool.not_eq_true] at h2
      simp only [h2, Bool.false_eq_true, if_false]
      rw [ih _ _ _ hdps, forwardedOf_cons_skip ex ps2 h2]

theorem rdPayloads_nopat :
    ∀ (ps : List Str) (st : RDState) (evs : List Str),
      (∀ q ∈ ps, hasSub doneMark q = false) →
      ∃ st2 : RDState,
        rdPayloads none [] false ps st evs =
          .next st2 ((forwardedOf [] ps).reverse ++ evs) ∧
        st2.data = st.data ++ (forwardedOf [] ps).flatten := by
  intro ps
  induction ps with
  | nil =>
    intro st evs _
    exact ⟨st, by simp [rdPayloads, forwardedOf, dataPayloadTexts], by
      simp [forwardedOf, dataPayloadTexts]⟩
  | cons p ps2 ih =>
    intro st evs hdone
    have hdp : hasSub doneMark p = false := hdone p (by simp)
    have hdps : ∀ q ∈ ps2, hasSub doneMark q = false :=
      fun q hq => hdone q (by simp [hq])
    obtain ⟨ds, b, d⟩ := st
    by_cases h2 : leadsWith dataTag p = true
    · by_cases h4 : parseContent p ≠ []
      · cases ds with
        | true =>
          obtain ⟨st2, heq, hdata⟩ :=
            ih ⟨true, b, d ++ stripRegexPatterns (parseContent p) []⟩
              (stripRegexPatterns (parseContent p) [] :: evs) hdps
          refine ⟨st2, ?_, ?_⟩
          · simp only [rdPayloads, hdp, Bool.false_or, Bool.false_eq_true,
              if_false, h2, if_true, if_pos h4]
            rw [heq, forwardedOf_cons_data_ne [] ps2 h2 h4]
            simp [List.append_assoc]
          · rw [hdata, forwardedOf_cons_data_ne [] ps2 h2 h4]
            simp [List.append_assoc]
        | false =>
          obtain ⟨st2, heq, hdata⟩ :=
            ih ⟨true, [], d ++ stripRegexPatterns (parseContent p) []⟩
              (stripRegexPatterns (parseContent p) [] :: evs) hdps
          refine ⟨st2, ?_, ?_⟩
          · simp only [rdPayloads, hdp, Bool.false_or, Bool.false_eq_true,
              if_false, h2, if_true, patTest, Option.isSome_none, if_pos h4]
            rw [heq, forwardedOf_cons_data_ne [] ps2 h2 h4]
            simp [List.append_assoc]
          · rw [hdata, forwardedOf_cons_data_ne [] ps2 h2 h4]
            simp [List.append_assoc]
      · simp only [Decidable.not_not] at h4
        cases ds with
        | true =>
          obtain ⟨st2, heq, hdata⟩ := ih ⟨true, b, d⟩ evs hdps
          refine ⟨st2, ?_, ?_⟩
          · simp only [rdPayloads, hdp, Bool.false_or, Bool.false_eq_true,
              if_false, h2, if_true, if_neg (by simp [h4] : ¬ parseContent p ≠ [])]
            rw [heq, forwardedOf_cons_data_nil [] ps2 h2 h4]
          · rw [hdata, forwardedOf_cons_data_nil [] ps2 h2 h4]
        | false =>
          obtain ⟨st2, heq, hdata⟩ := ih ⟨true, [], d⟩ evs hdps
          refine ⟨st2, ?_, ?_⟩
          · simp only [rdPayloads, hdp, Bool.false_or, Bool.false_eq_true,
              if_false, h2, if_true, patTest, Option.isSome_none,
              if_neg (by simp [h4] : ¬ parseContent p ≠ [])]
            rw [heq, forwardedOf_cons_data_nil [] ps2 h2 h4]
          · rw [hdata, forwardedOf_cons_data_nil [] ps2 h2 h4]
    · simp only [Bool.not_eq_true] at h2
      obtain ⟨st2, heq, hdata⟩ := ih ⟨ds, b, d⟩ evs hdps
      refine ⟨st2, ?_, ?_⟩
      · simp only [rdPayloads, hdp, Bool.false_or, Bool.false_eq_true,
          if_false, h2]
        rw [heq, forwardedOf_cons_skip [] ps2 h2]
      · rw [hdata, forwardedOf_cons_skip [] ps2 h2]

theorem rdChunks_step_next {exF : Option JsPattern} {ex : List (Option JsPattern)}
    {stop : Nat → Bool} {i : Nat} {c : Str} {cs : List Str} {st st2 : RDState}
    {evs evs2 : List Str}
    (h : rdPayloads exF ex (stop i) (splitPayloads [] c) st evs = .next st2 evs2) :
    rdChunks exF ex stop i (c :: cs) st evs =
      rdChunks exF ex stop (i + 1) cs st2 evs2 := by
  simp only [rdChunks]
  rw [h]

theorem rdChunks_step_broke {exF : Option JsPattern} {ex : List (Option JsPattern)}
    {stop : Nat → Bool} {i : Nat} {c : Str} {cs : List Str} {st st2 : RDState}
    {evs evs2 : List Str}
    (h : rdPayloads exF ex (stop i) (splitPayloads [] c) st evs = .broke st2 evs2) :
    rdChunks exF ex stop i (c :: cs) st evs =
      rdChunks exF ex stop (i + 1) cs st2 evs2 := by
  simp only [rdChunks]
  rw [h]

theorem rdChunks_step_resolved {exF : Option JsPattern} {ex : List (Option JsPattern)}
    {stop : Nat → Bool} {i : Nat} {c : Str} {cs : List Str} {st : RDState}
    {evs : List Str} {d : Str} {evs2 : List Str}
    (h : rdPayloads exF ex (stop i) (splitPayloads [] c) st evs = .resolved d evs2) :
    rdChunks exF ex stop i (c :: cs) st evs = (d, evs2.reverse) := by
  simp only [rdChunks]
  rw [h]

theorem rdChunks_post (exF : Option JsPattern) (ex : List (Option JsPattern)) :
    ∀ (cs : List Str) (i : Nat) (b d : Str) (evs : List Str),
      (∀ q ∈ payloadsOfChunks cs, hasSub doneMark q = false) →
      rdChunks exF ex (fun _ => false) i cs ⟨true, b, d⟩ evs =
        (d ++ (forwardedOf ex (payloadsOfChunks cs)).flatten,
         evs.reverse ++ forwardedOf ex (payloadsOfChunks cs)) := by
  intro cs
  induction cs with
  | nil =>
    intro i b d evs _
    simp [rdChunks, payloadsOfChunks, forwardedOf, dataPayloadTexts]
  | cons c cs2 ih =>
    intro i b d evs hdone
    have hpc : payloadsOfChunks (c :: cs2) =
        splitPayloads [] c ++ payloadsOfChunks cs2 := by
      simp [payloadsOfChunks]
    rw [hpc] at hdone
    have hdc : ∀ q ∈ splitPayloads [] c, hasSub doneMark q = false :=
      fun q hq => hdone q (List.mem_append_left _ hq)
    have hdcs : ∀ q ∈ payloadsOfChunks cs2, hasSub doneMark q = false :=
      fun q hq => hdone q (List.mem_append_right _ hq)
    rw [rdChunks_step_next (rdPayloads_post exF ex (splitPayloads [] c) b d evs hdc)]
    rw [ih (i + 1) b _ _ hdcs, hpc]
    simp [forwardedOf_append, List.append_assoc]

theorem rdChunks_nopat :
    ∀ (cs : List Str) (i : Nat) (st : RDState) (evs : List Str),
      (∀ q ∈ payloadsOfChunks cs, hasSub doneMark q = false) →
      rdChunks none [] (fun _ => false) i cs st evs =
        (st.data ++ (forwardedOf [] (payloadsOfChunks cs)).flatten,
         evs.reverse ++ forwardedOf [] (payloadsOfChunks cs)) := by
  intro cs
  induction cs with
  | nil =>
    intro i st evs _
    simp [rdChunks, payloadsOfChunks, forwardedOf, dataPayloadTexts]
  | cons c cs2 ih =>
    intro i st evs hdone
    have hpc : payloadsOfChunks (c :: cs2) =
        splitPayloads [] c ++ payloadsOfChunks cs2 := by
      simp [payloadsOfChunks]
    rw [hpc] at hdone
    have hdc : ∀ q ∈ splitPayloads [] c, hasSub doneMark q = false :=
      fun q hq => hdone q (List.mem_append_left _ hq)
    have hdcs : ∀ q ∈ payloadsOfChunks cs2, hasSub doneMark q = false :=
      fun q hq => hdone q (List.mem_append_right _ hq)
    obtain ⟨st2, heq, hdata⟩ := rdPayloads_nopat (splitPayloads [] c) st evs hdc
    rw [rdChunks_step_next heq, ih (i + 1) st2 _ hdcs, hdata, hpc]
    simp [forwardedOf_append, List.append_assoc]

theorem rdChunks_buffering (P : JsPattern) (ex : List (Option JsPattern)) :
    ∀ (A cs : List Str) (i : Nat) (buf d : Str) (evs : List Str),
      (∀ q ∈ payloadsOfChunks A, hasSub doneMark q = false) →
      (∀ k, k ≤ (dataPayloadTexts (payloadsOfChunks A)).length →
        P.test (buf ++ ((dataPayloadTexts (payloadsOfChunks A)).take k).flatten) =
          false) →
      rdChunks (some P) ex (fun _ => false) i (A ++ cs) ⟨false, buf, d⟩ evs =
        rdChunks (some P) ex (fun _ => false) (i + A.length) cs
          ⟨false, buf ++ (dataPayloadTexts (payloadsOfChunks A)).flatten, d⟩
          evs := by
  intro A
  induction A with
  | nil =>
    intro cs i buf d evs _ _
    simp [payloadsOfChunks, dataPayloadTexts]
  | cons a A2 ih =>
    intro cs i buf d evs hdone hnm
    have hpc : payloadsOfChunks (a :: A2) =
        splitPayloads [] a ++ payloadsOfChunks A2 := by
      simp [payloadsOfChunks]
    rw [hpc] at hdone hnm
    have hda : ∀ q ∈ splitPayloads [] a, hasSub doneMark q = false :=
      fun q hq => hdone q (List.mem_append_left _ hq)
    have hdA : ∀ q ∈ payloadsOfChunks A2, hasSub doneMark q = false :=
      fun q hq => hdone q (List.mem_append_right _ hq)
    rw [dataPayloadTexts_append] at hnm
    have hnm1 : ∀ k, k ≤ (dataPayloadTexts (splitPayloads [] a)).length →
        P.test (buf ++
          ((dataPayloadTexts (splitPayloads [] a)).take k).flatten) = false := by
      intro k hk
      have := hnm k (by simp; omega)
      rwa [List.take_append_of_le_length hk] at this
    have hnm2 : ∀ k, k ≤ (dataPayloadTexts (payloadsOfChunks A2)).length →
        P.test ((buf ++ (dataPayloadTexts (splitPayloads [] a)).flatten) ++
          ((dataPayloadTexts (payloadsOfChunks A2)).take k).flatten) = false := by
      intro k hk
      have := hnm ((dataPayloadTexts (splitPayloads [] a)).length + k)
        (by simp; omega)
      rwa [List.take_append, List.flatten_append, ← List.append_assoc] at this
    rw [List.cons_append,
      rdChunks_step_next (rdPayloads_buffering P ex (splitPayloads [] a) buf d evs hda hnm1)]
    rw [ih cs (i + 1) _ d evs hdA hnm2]
    rw [hpc, dataPayloadTexts_append]
    simp only [List.flatten_append, List.append_assoc, List.length_cons]
    have : i + 1 + A2.length = i + (A2.length + 1) := by omega
    rw [this]

/-- **C2 (amended)**: with no exclusion pattern supplied, forwarding
starts at the very first delta: every non-empty delta is stripped and
pushed to the sink in arrival order (empty deltas are skipped by the
`dataStart && content` test).  With a first exclusion pattern
supplied, deltas are buffered until the buffer matches it; the buffer
is then discarded, the delta completing the match is not forwarded,
and - because the source `break`s out of the payload loop - the
remaining payloads of that delta's chunk are also discarded; from the
next chunk on, every non-empty delta is stripped and forwarded in
arrival order. -/
theorem readData_boundary :
    (∀ chunks : List Str,
      (∀ q ∈ payloadsOfChunks chunks, hasSub doneMark q = false) →
      readData [] (fun _ => false) chunks =
        ((forwardedOf [] (payloadsOfChunks chunks)).flatten,
         forwardedOf [] (payloadsOfChunks chunks))) ∧
    (∀ (P : JsPattern) (rest : List (Option JsPattern)) (A B : List Str)
       (c : Str) (u v : List Str) (pb : Str),
      splitPayloads [] c = u ++ pb :: v →
      leadsWith dataTag pb = true →
      (∀ q ∈ payloadsOfChunks A ++ u, hasSub doneMark q = false) →
      hasSub doneMark pb = false →
      (∀ q ∈ payloadsOfChunks B, hasSub doneMark q = false) →
      (∀ k, k ≤ (dataPayloadTexts (payloadsOfChunks A ++ u)).length →
        P.test (((dataPayloadTexts (payloadsOfChunks A ++ u)).take k).flatten) =
          false) →
      P.test ((dataPayloadTexts (payloadsOfChunks A ++ u)).flatten ++
        parseContent pb) = true →
      readData (some P :: rest) (fun _ => false) (A ++ c :: B) =
        ((forwardedOf (some P :: rest) (payloadsOfChunks B)).flatten,
         forwardedOf (some P :: rest) (payloadsOfChunks B))) := by
  constructor
  · intro chunks hdone
    unfold readData
    show rdChunks none [] (fun _ => false) 0 chunks ⟨false, [], []⟩ [] = _
    rw [rdChunks_nopat chunks 0 ⟨false, [], []⟩ [] hdone]
    simp
  · intro P rest A B c u v pb hsplit hpbdata hdoneAu hpbdone hdoneB hnm hmatch
    have hdoneA : ∀ q ∈ payloadsOfChunks A, hasSub doneMark q = false :=
      fun q hq => hdoneAu q (List.mem_append_left _ hq)
    have hdoneu : ∀ q ∈ u, hasSub doneMark q = false :=
      fun q hq => hdoneAu q (List.mem_append_right _ hq)
    rw [dataPayloadTexts_append] at hnm hmatch
    have hnmA : ∀ k, k ≤ (dataPayloadTexts (payloadsOfChunks A)).length →
        P.test (([] : Str) ++
          ((dataPayloadTexts (payloadsOfChunks A)).take k).flatten) = false := by
      intro k hk
      have := hnm k (by simp; omega)
      rw [List.take_append_of_le_length hk] at this
      simpa using this
    have hnmu : ∀ k, k ≤ (dataPayloadTexts u).length →
        P.test (((dataPayloadTexts (payloadsOfChunks A)).flatten) ++
          ((dataPayloadTexts u).take k).flatten) = false := by
      intro k hk
      have := hnm ((dataPayloadTexts (payloadsOfChunks A)).length + k)
        (by simp; omega)
      rwa [List.take_append, List.flatten_append] at this
    unfold readData
    show rdChunks (some P) (some P :: rest) (fun _ => false) 0 (A ++ c :: B)
        ⟨false, [], []⟩ [] = _
    rw [rdChunks_buffering P (some P :: rest) A (c :: B) 0 [] [] [] hdoneA
      (by intro k hk; simpa using hnmA k hk)]
    have hstep : rdPayloads (some P) (some P :: rest) false
        (splitPayloads [] c)
        ⟨false, [] ++ (dataPayloadTexts (payloadsOfChunks A)).flatten, []⟩ [] =
        .broke ⟨true, [], []⟩ [] := by
      rw [hsplit, rdPayloads_append]
      rw [rdPayloads_buffering P (some P :: rest) u _ [] [] hdoneu
        (by intro k hk; simpa [List.append_assoc] using hnmu k hk)]
      simp only [rdPayloads, hpbdone, Bool.false_or, Bool.false_eq_true,
        if_false, hpbdata, if_true, patTest, Option.isSome_some]
      have : P.test
          ((([] : Str) ++ (dataPayloadTexts (payloadsOfChunks A)).flatten ++
            (dataPayloadTexts u).flatten) ++ parseContent pb) = true := by
        simpa [List.flatten_append, List.append_assoc] using hmatch
      rw [this]
      simp
    rw [rdChunks_step_broke hstep]
    rw [rdChunks_post (some P) (some P :: rest) B _ [] [] [] hdoneB]
    simp

/-- Witness for C2 (amended): a no-pattern run forwards both deltas;
a pattern matching the first delta suppresses it and forwards the
deltas of the following chunks. -/
theorem readData_boundary_witness :
    readData [] (fun _ => false)
        [strL "data: \x7b\"choices\":[\x7b\"delta\":\x7b\"content\":\"H\"\x7d\x7d]\x7d\n\ndata: \x7b\"choices\":[\x7b\"delta\":\x7b\"content\":\"W\"\x7d\x7d]\x7d"] =
      (strL "HW", [strL "H", strL "W"]) ∧
    readData [some ⟨fun s => hasSub ['X'] s, fun s => s.filter (fun ch => ch ≠ 'X')⟩]
        (fun _ => false)
        ([] ++ strL "data: \x7b\"choices\":[\x7b\"delta\":\x7b\"content\":\"X\"\x7d\x7d]\x7d\n\ndata: \x7b\"choices\":[\x7b\"delta\":\x7b\"content\":\"L\"\x7d\x7d]\x7d" ::
          [strL "data: \x7b\"choices\":[\x7b\"delta\":\x7b\"content\":\"S\"\x7d\x7d]\x7d"]) =
      (strL "S", [strL "S"]) := by
  constructor
  · rw [readData_boundary.1 _ (by decide)]
    decide
  · rw [readData_boundary.2
      ⟨fun s => hasSub ['X'] s, fun s => s.filter (fun ch => ch ≠ 'X')⟩ [] [] _ _
      [] [strL "data: \x7b\"choices\":[\x7b\"delta\":\x7b\"content\":\"L\"\x7d\x7d]\x7d"]
      (strL "data: \x7b\"choices\":[\x7b\"delta\":\x7b\"content\":\"X\"\x7d\x7d]\x7d")
      (by decide) (by decide) (by decide) (by decide) (by decide)
      (by decide) (by decide)]
    decide

/-- **C2 (counterexample)**: with an exclusion pattern matching the
first delta `X`, the delta `L` - carried by a later payload of the
same chunk - is neither forwarded to the sink nor part of the returned
text, because the boundary match `break`s out of the payload loop;
only the next chunk's delta `S` is forwarded, refuting the claim that
every delta after the match-completing one is forwarded. -/
theorem readData_break_skips_chunk_cex :
    parseContent (strL "data: \x7b\"choices\":[\x7b\"delta\":\x7b\"content\":\"L\"\x7d\x7d]\x7d") =
      strL "L" ∧
    readData [some ⟨fun s => hasSub ['X'] s, fun s => s.filter (fun ch => ch ≠ 'X')⟩]
        (fun _ => false)
        [strL "data: \x7b\"choices\":[\x7b\"delta\":\x7b\"content\":\"X\"\x7d\x7d]\x7d\n\ndata: \x7b\"choices\":[\x7b\"delta\":\x7b\"content\":\"L\"\x7d\x7d]\x7d",
         strL "data: \x7b\"choices\":[\x7b\"delta\":\x7b\"content\":\"S\"\x7d\x7d]\x7d\n\n[DONE]"] =
      (strL "S", [strL "S"]) ∧
    (strL "S", [strL "S"]) ≠ (strL "LS", [strL "L", strL "S"]) := by
  exact ⟨by decide, by decide, by decide⟩

theorem rdPayloads_silent (P : JsPattern) (ex : List (Option JsPattern))
    (sn : Bool) :
    ∀ (ps : List Str) (buf : Str),
      (∀ k, P.test (buf ++ ((dataPayloadTexts ps).take k).flatten) = false) →
      rdPayloads (some P) ex sn ps ⟨false, buf, []⟩ [] = .resolved [] [] ∨
      rdPayloads (some P) ex sn ps ⟨false, buf, []⟩ [] =
        .next ⟨false, buf ++ (dataPayloadTexts ps).flatten, []⟩ [] := by
  intro ps
  induction ps with
  | nil =>
    intro buf _
    right
    simp [rdPayloads, dataPayloadTexts]
  | cons p ps2 ih =>
    intro buf hnm
    by_cases hstop : (hasSub doneMark p || sn) = true
    · left
      simp [rdPayloads, hstop]
    · by_cases h2 : leadsWith dataTag p = true
      · have hΔ := dataPayloadTexts_cons_data ps2 h2
        have hstep : P.test (buf ++ parseContent p) = false := by
          have := hnm 1
          rw [hΔ] at this
          simpa using this
        have hnm2 : ∀ k, P.test ((buf ++ parseContent p) ++
            ((dataPayloadTexts ps2).take k).flatten) = false := by
          intro k
          have := hnm (k + 1)
          rw [hΔ] at this
          simpa [List.append_assoc] using this
        rcases ih (buf ++ parseContent p) hnm2 with h | h
        · left
          simp only [rdPayloads, hstop, Bool.false_eq_true, if_false, h2,
            if_true, patTest, hstep]
          exact h
        · right
          simp only [rdPayloads, hstop, Bool.false_eq_true, if_false, h2,
            if_true, patTest, hstep]
          rw [h, hΔ]
          simp [List.append_assoc]
      · simp only [Bool.not_eq_true] at h2
        have hΔ := dataPayloadTexts_cons_skip ps2 h2
        rcases ih buf (by rw [hΔ] at hnm; exact hnm) with h | h
        · left
          simp only [rdPayloads, hstop, Bool.false_eq_true, if_false, h2]
          exact h
        · right
          simp only [rdPayloads, hstop, Bool.false_eq_true, if_false, h2]
          rw [h, hΔ]

theorem rdChunks_silent (P : JsPattern) (ex : List (Option JsPattern))
    (stop : Nat → Bool) :
    ∀ (cs : List Str) (i : Nat) (buf : Str),
      (∀ k, P.test (buf ++
        ((dataPayloadTexts (payloadsOfChunks cs)).take k).flatten) = false) →
      rdChunks (some P) ex stop i cs ⟨false, buf, []⟩ [] = ([], []) := by
  intro cs
  induction cs with
  | nil =>
    intro i buf _
    simp [rdChunks]
  | cons c cs2 ih =>
    intro i buf hnm
    have hpc : payloadsOfChunks (c :: cs2) =
        splitPayloads [] c ++ payloadsOfChunks cs2 := by
      simp [payloadsOfChunks]
    rw [hpc, dataPayloadTexts_append] at hnm
    have hnmc : ∀ k, P.test (buf ++
        ((dataPayloadTexts (splitPayloads [] c)).take k).flatten) = false := by
      intro k
      rcases le_or_lt k (dataPayloadTexts (splitPayloads [] c)).length with hk | hk
      · have := hnm k
        rwa [List.take_append_of_le_length hk] at this
      · have := hnm (dataPayloadTexts (splitPayloads [] c)).length
        rw [List.take_append_of_le_length (Nat.le_refl _), List.take_length]
          at this
        rwa [List.take_of_length_le (Nat.le_of_lt hk)]
    have hnm2 : ∀ k, P.test ((buf ++
        (dataPayloadTexts (splitPayloads [] c)).flatten) ++
        ((dataPayloadTexts (payloadsOfChunks cs2)).take k).flatten) = false := by
      intro k
      have := hnm ((dataPayloadTexts (splitPayloads [] c)).length + k)
      rwa [List.take_append, List.flatten_append, ← List.append_assoc] at this
    rcases rdPayloads_silent P ex (stop i) (splitPayloads [] c) buf hnmc with h | h
    · rw [rdChunks_step_resolved h]
      rfl
    · rw [rdChunks_step_next h]
      exact ih (i + 1) _ hnm2

theorem hasSub_head_mem {c : Char} {n l : Str} (h : hasSub (c :: n) l = true) :
    c ∈ l := by
  induction l with
  | nil => simp [hasSub] at h
  | cons d t ih =>
    simp only [hasSub, Bool.or_eq_true] at h
    rcases h with h | h
    · simp only [leadsWith, Bool.and_eq_true, beq_iff_eq] at h
      exact h.1 ▸ List.mem_cons_self _ _
    · exact List.mem_cons_of_mem _ (ih h)

/-- **C10**: if the payload sequence ends in a `[DONE]` payload and a
first exclusion pattern is supplied that no prefix of the concatenated
deltas ever matches, then `readData` never invokes the sink and
resolves with the empty string (for any cancellation schedule). -/
theorem readData_no_match_silent (P : JsPattern)
    (rest : List (Option JsPattern)) (stop : Nat → Bool)
    (chunks qs : List Str) (q : Str)
    (hend : payloadsOfChunks chunks = qs ++ [q])
    (hq : hasSub doneMark q = true)
    (hnm : ∀ s t : Str,
      s ++ t = (dataPayloadTexts (payloadsOfChunks chunks)).flatten →
      P.test s = false) :
    readData (some P :: rest) stop chunks = ([], []) := by
  unfold readData
  show rdChunks (some P) (some P :: rest) stop 0 chunks ⟨false, [], []⟩ [] = _
  apply rdChunks_silent
  intro k
  have := hnm (((dataPayloadTexts (payloadsOfChunks chunks)).take k).flatten)
      (((dataPayloadTexts (payloadsOfChunks chunks)).drop k).flatten)
      (by rw [← List.flatten_append, List.take_append_drop])
  simpa using this

/-- Witness for C10: a pattern looking for `Z` over the delta stream
`A`, `B`: nothing is forwarded and the promise resolves empty. -/
theorem readData_no_match_silent_witness :
    readData [some ⟨fun s => hasSub ['Z'] s, fun s => s⟩] (fun _ => false)
        [strL "data: \x7b\"choices\":[\x7b\"delta\":\x7b\"content\":\"A\"\x7d\x7d]\x7d\n\ndata: \x7b\"choices\":[\x7b\"delta\":\x7b\"content\":\"B\"\x7d\x7d]\x7d\n\n[DONE]"] =
      ([], []) := by
  apply readData_no_match_silent _ _ _ _
      [strL "data: \x7b\"choices\":[\x7b\"delta\":\x7b\"content\":\"A\"\x7d\x7d]\x7d",
       strL "data: \x7b\"choices\":[\x7b\"delta\":\x7b\"content\":\"B\"\x7d\x7d]\x7d"]
      (strL "[DONE]") (by decide) (by decide)
  intro s t h
  show hasSub ['Z'] s = false
  cases htest : hasSub ['Z'] s with
  | false => rfl
  | true =>
    exfalso
    have hz : 'Z' ∈ s := hasSub_head_mem htest
    have hmem : 'Z' ∈ s ++ t := List.mem_append_left _ hz
    rw [h] at hmem
    revert hmem
    decide

-- ### The prompt builders

/-- The ambient process environment the prompt builders read: the
detected shell (`detectShell`), the detected operating-system name
(`require` of the OS helper followed by `os.name()`), and the
configured display language (`i18n.getCurrentLanguagenName()`).
These collaborators are external to the core; the builders read them
through this record. -/
structure AmbientEnv where
  shell : Str
  osName : Str
  language : Str

/-- `getShellDetails` (source lines 360-366). -/
def getShellDetails (env : AmbientEnv) : Str :=
  dedentJs (strL "\n      The target shell is " ++ env.shell ++ strL "\n  ")

/-- The module-level constant `shellDetails` (source line 367),
computed once from the environment at module load. -/
def shellDetailsConst (loadEnv : AmbientEnv) : Str := getShellDetails loadEnv

/-- The module-level constant `explainInSecondRequest` (source
line 19). -/
def explainInSecondRequest : Bool := true

/-- The `explainScript` constant (source lines 369-371). -/
def explainScript : Str :=
  dedentJs (strL "\n  Please provide a clear, concise description of the script, using minimal words. Outline the steps in a list format.\n")

/-- `getGenerationDetails` (source lines 377-395): the OS detector and
the language lookup are called inside the builder, modelled as reads
of the call-time environment.  The template holds the raw source text
with the backtick unescaping of `dedent` pre-applied; the remaining
`dedent` steps (including turning the literal backslash-`n` pairs of
the format line into newlines) are `dedentJs`. -/
def getGenerationDetails (env : AmbientEnv) : Str :=
  dedentJs (strL "\n    Reply with two parts:\n    1. The command inside a markdown code block (format: ```bash\\\\nyour command here\\\\n```)\n    2. A brief explanation of what the command does\n\n    Example:\n    ```bash\n    your command here\n    ```\n    Explanation text here.\n\n    **IMPORTANT**: Use macOS-compatible syntax (prefer short options like `-r` over `--reverse`). Mention in explanation if command differs between macOS/Linux (if same, don\x27t mention).\n\n    Make sure the command runs on " ++ env.osName ++ strL ".\n\n    **Language**: Explain in " ++ env.language ++ strL ".\n  ")

/-- `getFullPrompt` (source lines 397-409): the shell details come
from the module-load environment, the generation details from the
call-time environment. -/
def getFullPrompt (loadEnv env : AmbientEnv) (prompt : Str) : Str :=
  dedentJs (strL "\n    Create a single line command that one can enter in a terminal and run, based on what is specified in the prompt.\n\n    " ++
    shellDetailsConst loadEnv ++ strL "\n\n    " ++
    getGenerationDetails env ++ strL "\n\n    " ++
    (if explainInSecondRequest then [] else explainScript) ++
    strL "\n\n    The prompt is: " ++ prompt ++ strL "\n  ")

/-- `getRevisionPrompt` (source lines 411-421). -/
def getRevisionPrompt (env : AmbientEnv) (prompt code : Str) : Str :=
  dedentJs (strL "\n    Update the following script based on what is asked in the following prompt.\n\n    The script: " ++ code ++
    strL "\n\n    The prompt: " ++ prompt ++ strL "\n\n    " ++
    getGenerationDetails env ++ strL "\n  ")

/-- `getExplanationPrompt` (source lines 352-358). -/
def getExplanationPrompt (env : AmbientEnv) (script : Str) : Str :=
  dedentJs (strL "\n    " ++ explainScript ++ strL " Please reply in " ++
    env.language ++ strL "\n\n    The script: " ++ script ++ strL "\n  ")

/-- **C9 (amended)**: the builders are deterministic: the shell string
is read once at module load (a call-time shell change does not affect
`getFullPrompt`), while the OS name and the language are read inside
the builders at each invocation; with those fixed, equal prompt inputs
yield identical prompts. -/
theorem promptBuilders_deterministic (loadEnv env env2 : AmbientEnv)
    (p code script : Str)
    (hos : env.osName = env2.osName) (hlang : env.language = env2.language) :
    getFullPrompt loadEnv env p = getFullPrompt loadEnv env2 p ∧
    getRevisionPrompt env p code = getRevisionPrompt env2 p code ∧
    getExplanationPrompt env script = getExplanationPrompt env2 script ∧
    getGenerationDetails env = getGenerationDetails env2 := by
  obtain ⟨s1, o1, l1⟩ := env
  obtain ⟨s2, o2, l2⟩ := env2
  simp only at hos hlang
  subst hos
  subst hlang
  exact ⟨rfl, rfl, rfl, rfl⟩

/-- Witness for C9 (amended): a call-time shell change leaves every
builder output unchanged. -/
theorem promptBuilders_deterministic_witness :
    getFullPrompt ⟨strL "zsh", strL "macOS", strL "English"⟩
        ⟨strL "bash", strL "Linux", strL "French"⟩ (strL "list files") =
      getFullPrompt ⟨strL "zsh", strL "macOS", strL "English"⟩
        ⟨strL "fish", strL "Linux", strL "French"⟩ (strL "list files") ∧
    getExplanationPrompt ⟨strL "bash", strL "Linux", strL "French"⟩ (strL "ls") =
      getExplanationPrompt ⟨strL "fish", strL "Linux", strL "French"⟩ (strL "ls") :=
  ⟨(promptBuilders_deterministic ⟨strL "zsh", strL "macOS", strL "English"⟩
      ⟨strL "bash", strL "Linux", strL "French"⟩
      ⟨strL "fish", strL "Linux", strL "French"⟩
      (strL "list files") [] (strL "ls") rfl rfl).1,
   (promptBuilders_deterministic ⟨strL "zsh", strL "macOS", strL "English"⟩
      ⟨strL "bash", strL "Linux", strL "French"⟩
      ⟨strL "fish", strL "Linux", strL "French"⟩
      (strL "list files") [] (strL "ls") rfl rfl).2.2.1⟩

/-- **C9 (counterexample)**: with the module-load environment and the
supplied script identical, changing the ambient language between two
calls changes the explanation prompt, and changing the ambient OS name
changes the generation details - the language and OS lookups happen
inside the builders at call time, refuting the claim that the prompt
is a function of the supplied text plus precomputed injected strings
with no environment detection inside the builder. -/
theorem promptBuilders_env_detection_cex :
    getExplanationPrompt ⟨strL "zsh", strL "macOS", strL "English"⟩ (strL "ls") ≠
      getExplanationPrompt ⟨strL "zsh", strL "macOS", strL "French"⟩ (strL "ls") ∧
    getGenerationDetails ⟨strL "zsh", strL "macOS", strL "English"⟩ ≠
      getGenerationDetails ⟨strL "zsh", strL "Linux", strL "English"⟩ := by
  exact ⟨by decide, by decide⟩

-- ### `extractScriptAndExplanation`: the code-block regex

/-- The closing delimiter of the code-block regex. -/
def closeMark : Str := ['\n', '`', '`', '`']

/-- Case-insensitive initial-segment test: the `i` flag of the regex,
applied to the `bash`/`sh` tag alternatives (ASCII folding). -/
def leadsWithCI : Str → Str → Bool
  | [], _ => true
  | _ :: _, [] => false
  | a :: as, b :: bs => (a.toLower == b.toLower) && leadsWithCI as bs

/-- Strip an exact initial segment. -/
def stripLead (n l : Str) : Option Str :=
  if leadsWith n l then some (l.drop n.length) else none

/-- Strip a case-insensitive initial segment. -/
def stripLeadCI (n l : Str) : Option Str :=
  if leadsWithCI n l then some (l.drop n.length) else none

/-- First success over a list of candidates, in order - the
backtracking order of the regex engine. -/
def firstSome {α β : Type} : List α → (α → Option β) → Option β
  | [], _ => none
  | a :: as, f =>
    match f a with
    | some b => some b
    | none => firstSome as f

/-- The candidate consumption lengths of `\s*\n` at the current
position, in greedy order (longest first): each `k` within the
leading whitespace run such that the character at offset `k` is a
newline; the engine then consumes `k + 1` characters. -/
def wsNlCandidates (l : Str) : List Nat :=
  ((List.range ((l.takeWhile isJsSpace).length + 1)).filter
    (fun k => l.getD k ' ' == '\n')).reverse

/-- Split at the first occurrence of the closing delimiter: the lazy
`[\s\S]*?` takes the shortest interior. -/
def splitClose : Str → Option (Str × Str)
  | [] => none
  | c :: t =>
    if leadsWith closeMark (c :: t) then
      some ([], (c :: t).drop closeMark.length)
    else
      match splitClose t with
      | some (a, b) => some (c :: a, b)
      | none => none

/-- One attempt of
`/\x60\x60\x60(?:bash|sh)?\s*\n([\s\S]*?)\n\x60\x60\x60/i` at the
current position: the opening fence, then the tag alternatives
`bash`, `sh`, none - in order - then the backtracking `\s*\n`, then
the lazy interior up to the first closing delimiter.  Returns the
consumed length, the captured interior and the rest of the input. -/
def matchFenceAt (l : Str) : Option (Nat × Str × Str) :=
  match stripLead (strL "```") l with
  | none => none
  | some l0 =>
    firstSome [strL "bash", strL "sh", []] (fun tag =>
      match stripLeadCI tag l0 with
      | none => none
      | some l1 =>
        firstSome (wsNlCandidates l1) (fun k =>
          match splitClose (l1.drop (k + 1)) with
          | some (int, aft) => some (l.length - aft.length, int, aft)
          | none => none))

/-- The leftmost match of the code-block regex: positions are tried
left to right; `.match` and `.replace` (no `g` flag) both use this
first match. -/
def findFence : Str → Option (Str × Nat × Str × Str)
  | [] =>
    match matchFenceAt [] with
    | some (n, i, a) => some ([], n, i, a)
    | none => none
  | c :: t =>
    match matchFenceAt (c :: t) with
    | some (n, i, a) => some ([], n, i, a)
    | none =>
      match findFence t with
      | some (pre, n, i, a) => some (c :: pre, n, i, a)
      | none => none

/-- `extractScriptAndExplanation` (source lines 35-51).  The
`match && match[1]` test means a first block whose captured interior
is the empty string is treated like no match at all. -/
def extractScriptAndExplanation (s : Str) : Str × Str :=
  match findFence s with
  | some (pre, _, int, aft) =>
    if int ≠ [] then (jsTrim int, jsTrim (pre ++ aft))
    else ([], jsTrim s)
  | none => ([], jsTrim s)

-- ### Lemmas for the code-block regex

theorem leadsWith_decomp {n l : Str} (h : leadsWith n l = true) :
    l = n ++ l.drop n.length := by
  induction n generalizing l with
  | nil => simp
  | cons c cs ih =>
    cases l with
    | nil => simp [leadsWith] at h
    | cons d t =>
      simp only [leadsWith, Bool.and_eq_true, beq_iff_eq] at h
      obtain ⟨rfl, h2⟩ := h
      simpa using ih h2

theorem splitClose_spec :
    ∀ {l a b : Str}, splitClose l = some (a, b) →
      l = a ++ closeMark ++ b ∧
      ∀ x y, l = x ++ closeMark ++ y → a.length ≤ x.length := by
  intro l
  induction l with
  | nil => intro a b h; simp [splitClose] at h
  | cons c t ih =>
    intro a b h
    by_cases hc : leadsWith closeMark (c :: t) = true
    · simp only [splitClose, hc, if_true, Option.some.injEq, Prod.mk.injEq] at h
      obtain ⟨rfl, rfl⟩ := h
      constructor
      · simpa using leadsWith_decomp hc
      · intro x y _
        simp
    · simp only [splitClose, hc, Bool.false_eq_true, if_false] at h
      cases hrec : splitClose t with
      | none => rw [hrec] at h; simp at h
      | some ab =>
        obtain ⟨a2, b2⟩ := ab
        rw [hrec] at h
        simp only [Option.some.injEq, Prod.mk.injEq] at h
        obtain ⟨rfl, rfl⟩ := h
        obtain ⟨hdec, hmin⟩ := ih hrec
        constructor
        · simpa using hdec
        · intro x y hxy
          cases x with
          | nil =>
            exfalso
            apply hc
            simp only [List.nil_append] at hxy
            rw [hxy]
            exact leadsWith_append closeMark y
          | cons d x2 =>
            simp only [List.cons_append, List.cons.injEq] at hxy
            obtain ⟨rfl, hxy2⟩ := hxy
            simpa using hmin x2 y hxy2

theorem firstSome_eq_some {α β : Type} {xs : List α} {f : α → Option β} {b : β}
    (h : firstSome xs f = some b) : ∃ a ∈ xs, f a = some b := by
  induction xs with
  | nil => simp [firstSome] at h
  | cons a as ih =>
    simp only [firstSome] at h
    cases hfa : f a with
    | some b2 =>
      rw [hfa] at h
      simp only [Option.some.injEq] at h
      exact ⟨a, by simp, hfa.trans (by rw [h])⟩
    | none =>
      rw [hfa] at h
      obtain ⟨a2, ha2, hf2⟩ := ih h
      exact ⟨a2, by simp [ha2], hf2⟩

theorem matchFenceAt_some {m : Str} {n : Nat} {int aft : Str}
    (h : matchFenceAt m = some (n, int, aft)) :
    (∃ x : Str, x ++ aft = m ∧ x.length = n) ∧
    (∀ x y : Str, int ≠ x ++ closeMark ++ y) := by
  unfold matchFenceAt at h
  cases hstrip : stripLead (strL "```") m with
  | none => rw [hstrip] at h; simp at h
  | some l0 =>
    rw [hstrip] at h
    simp only at h
    obtain ⟨tag, _, htag⟩ := firstSome_eq_some h
    cases hci : stripLeadCI tag l0 with
    | none => rw [hci] at htag; simp at htag
    | some l1 =>
      rw [hci] at htag
      simp only at htag
      obtain ⟨k, _, hk⟩ := firstSome_eq_some htag
      cases hsc : splitClose (l1.drop (k + 1)) with
      | none => rw [hsc] at hk; simp at hk
      | some ab =>
        obtain ⟨intc, aftc⟩ := ab
        rw [hsc] at hk
        simp only [Option.some.injEq, Prod.mk.injEq] at hk
        obtain ⟨hn, hint, haft⟩ := hk
        subst hint
        subst haft
        subst hn
        obtain ⟨hdec, hmin⟩ := splitClose_spec hsc
        have hm0 : m = strL "```" ++ l0 := by
          unfold stripLead at hstrip
          by_cases hl : leadsWith (strL "```") m = true
          · rw [if_pos hl] at hstrip
            simp only [Option.some.injEq] at hstrip
            rw [← hstrip]
            exact leadsWith_decomp hl
          · rw [if_neg hl] at hstrip; simp at hstrip
        have hl0 : l0 = l0.take tag.length ++ l1 := by
          unfold stripLeadCI at hci
          by_cases hl : leadsWithCI tag l0 = true
          · rw [if_pos hl] at hci
            simp only [Option.some.injEq] at hci
            rw [← hci]
            exact (List.take_append_drop tag.length l0).symm
          · rw [if_neg hl] at hci; simp at hci
        obtain ⟨x2, hx2⟩ : ∃ x2, l0 = x2 ++ l1 := ⟨l0.take tag.length, hl0⟩
        obtain ⟨x3, hx3⟩ : ∃ x3, l1 = x3 ++ (intc ++ closeMark ++ aftc) :=
          ⟨l1.take (k + 1), by
            conv_lhs => rw [(List.take_append_drop (k + 1) l1).symm]
            rw [hdec]⟩
        have hmdec : m = (strL "```" ++ x2 ++ x3 ++ (intc ++ closeMark)) ++ aftc := by
          rw [hm0, hx2, hx3]
          simp [List.append_assoc]
        refine ⟨⟨strL "```" ++ x2 ++ x3 ++ (intc ++ closeMark), hmdec.symm, ?_⟩, ?_⟩
        · have hlenm : m.length =
              (strL "```" ++ x2 ++ x3 ++ (intc ++ closeMark)).length +
                aftc.length := by
            conv_lhs => rw [hmdec]
            simp
            omega
          omega
        · intro x y hxy
          have := hmin x (y ++ closeMark ++ aftc)
            (by rw [hdec, hxy]; simp [List.append_assoc])
          rw [hxy] at this
          simp only [List.length_append] at this
          have hcm : closeMark.length = 4 := by decide
          omega

theorem findFence_none {s : Str} (h : findFence s = none) :
    ∀ j, matchFenceAt (s.drop j) = none := by
  induction s with
  | nil =>
    intro j
    simp only [List.drop_nil]
    rfl
  | cons c t ih =>
    intro j
    have hm : matchFenceAt (c :: t) = none := by
      by_contra hne
      cases hmm : matchFenceAt (c :: t) with
      | none => exact hne hmm
      | some r =>
        obtain ⟨n, i, a⟩ := r
        simp [findFence, hmm] at h
    have hf : findFence t = none := by
      cases hff : findFence t with
      | none => rfl
      | some r =>
        obtain ⟨pre, n, i, a⟩ := r
        simp [findFence, hm, hff] at h
    cases j with
    | zero => simpa using hm
    | succ j2 => simpa using ih hf j2

theorem findFence_some :
    ∀ {s pre : Str} {n : Nat} {int aft : Str},
      findFence s = some (pre, n, int, aft) →
      s.take pre.length = pre ∧
      matchFenceAt (s.drop pre.length) = some (n, int, aft) ∧
      ∀ j, j < pre.length → matchFenceAt (s.drop j) = none := by
  intro s
  induction s with
  | nil =>
    intro pre n int aft h
    have hnone : matchFenceAt ([] : Str) = none := rfl
    simp only [findFence, hnone] at h
    exact Option.noConfusion h
  | cons c t ih =>
    intro pre n int aft h
    cases hm : matchFenceAt (c :: t) with
    | some r =>
      obtain ⟨n2, i2, a2⟩ := r
      simp only [findFence, hm, Option.some.injEq] at h
      obtain ⟨rfl, rfl, rfl, rfl⟩ := h
      exact ⟨by simp, by simpa using hm, by intro j hj; simp at hj⟩
    | none =>
      cases hf : findFence t with
      | none =>
        simp only [findFence, hm, hf] at h
        exact Option.noConfusion h
      | some r =>
        obtain ⟨pre2, n2, i2, a2⟩ := r
        simp only [findFence, hm, hf, Option.some.injEq] at h
        obtain ⟨rfl, rfl, rfl, rfl⟩ := h
        obtain ⟨htake, hmatch, hnone⟩ := ih hf
        refine ⟨?_, ?_, ?_⟩
        · simp only [List.length_cons, List.take_succ_cons, htake]
        · simpa using hmatch
        · intro j hj
          cases j with
          | zero => simpa using hm
          | succ j2 =>
            simp only [List.length_cons, Nat.succ_lt_succ_iff] at hj
            simpa using hnone j2 hj

/-- **C4 (amended)**: extraction locates the first position where the
code-block regex (tag `bash`, `sh`, or none; lazy interior) matches.
If no position matches, the script is empty and the explanation is the
trimmed input.  If the first match has a non-empty interior, the
script is the trimmed interior and the explanation is the input with
the matched block removed, trimmed; the interior is non-greedy (it
contains no closing delimiter).  If the first match has an EMPTY
interior, the `match && match[1]` test fails and the result is as if
no block existed: empty script and the full trimmed input - the block
is not removed. -/
theorem extractScriptAndExplanation_spec (s : Str) :
    (findFence s = none →
      (∀ j, matchFenceAt (s.drop j) = none) ∧
      extractScriptAndExplanation s = ([], jsTrim s)) ∧
    (∀ (pre : Str) (n : Nat) (int aft : Str),
      findFence s = some (pre, n, int, aft) →
      s = pre ++ ((s.drop pre.length).take n ++ aft) ∧
      matchFenceAt (s.drop pre.length) = some (n, int, aft) ∧
      (∀ j, j < pre.length → matchFenceAt (s.drop j) = none) ∧
      (∀ x y, int ≠ x ++ closeMark ++ y) ∧
      (int ≠ [] →
        extractScriptAndExplanation s = (jsTrim int, jsTrim (pre ++ aft))) ∧
      (int = [] → extractScriptAndExplanation s = ([], jsTrim s))) := by
  constructor
  · intro h
    refine ⟨findFence_none h, ?_⟩
    unfold extractScriptAndExplanation
    rw [h]
  · intro pre n int aft h
    obtain ⟨htake, hmatch, hnone⟩ := findFence_some h
    obtain ⟨⟨x, hx, hxlen⟩, hng⟩ := matchFenceAt_some hmatch
    refine ⟨?_, hmatch, hnone, hng, ?_, ?_⟩
    · have hsplit : s = pre ++ s.drop pre.length := by
        conv_lhs => rw [← List.take_append_drop pre.length s]
        rw [htake]
      have hxt : (s.drop pre.length).take n = x := by
        rw [← hx, ← hxlen, List.take_left]
      rw [hxt]
      conv_lhs => rw [hsplit]
      rw [← hx]
    · intro hne
      unfold extractScriptAndExplanation
      rw [h]
      dsimp only
      rw [if_pos hne]
    · intro hnil
      unfold extractScriptAndExplanation
      rw [h]
      dsimp only
      rw [if_neg (by simp [hnil])]

/-- Witness for C4 (amended): the round-trip example and the
no-block example. -/
theorem extractScriptAndExplanation_spec_witness :
    extractScriptAndExplanation (strL "```bash\nECHO 1\n``` Prints 1.") =
      (jsTrim (strL "ECHO 1"), jsTrim (([] : Str) ++ strL " Prints 1.")) ∧
    extractScriptAndExplanation (strL "```bash\nECHO 1\n``` Prints 1.") =
      (strL "ECHO 1", strL "Prints 1.") ∧
    extractScriptAndExplanation (strL "I cannot help with that.") =
      ([], jsTrim (strL "I cannot help with that.")) ∧
    extractScriptAndExplanation (strL "I cannot help with that.") =
      ([], strL "I cannot help with that.") := by
  refine ⟨?_, by decide, ?_, by decide⟩
  · exact ((extractScriptAndExplanation_spec _).2 [] 18 (strL "ECHO 1")
      (strL " Prints 1.") (by decide)).2.2.2.2.1 (by decide)
  · exact ((extractScriptAndExplanation_spec _).1 (by decide)).2

/-- **C4 (counterexample)**: on `"```bash\n\n``` hello"` the regex
matches with an EMPTY captured interior, so `match[1]` is falsy and
the source takes the no-block branch: the script is empty but the
explanation keeps the block text instead of being the input with the
block removed (`"hello"`), refuting the claim as stated. -/
theorem extract_empty_interior_cex :
    findFence (strL "```bash\n\n``` hello") =
      some ([], 12, [], strL " hello") ∧
    extractScriptAndExplanation (strL "```bash\n\n``` hello") =
      ([], strL "```bash\n\n``` hello") ∧
    jsTrim (([] : Str) ++ strL " hello") = strL "hello" ∧
    strL "```bash\n\n``` hello" ≠ strL "hello" := by
  exact ⟨by decide, by decide, by decide, by decide⟩
